import Mathlib

/-! Shallow embedding of the `summarize-commits` repository's core logic:

* the calendar layout builder of `src/components/ContributionGraph.tsx`
  (`generateWeeksForYear`, `getContributionLevel`, `formatDate`), with JS `Date`
  modelled as a proleptic-Gregorian calendar date triple
  (`getDay`: 0 = Sunday, .. 6 = Saturday; `getMonth`: 0 = January, .. 11 = December),
* the CSV-row aggregation shared by `scripts/generate-commits-data.js` and
  `server.ts` (JS `Map`/`Set` modelled as association lists that preserve
  insertion order, updating an existing key in place),
* the per-year statistics computed in the `useMemo` block of
  `ContributionGraph.tsx` (JS `parseInt` modelled as an `Option Int` parser,
  with `NaN === NaN` being false reflected by `jsNumEq none none = false`).

Counts are modelled as `Nat` (they are only ever incremented from 0 in the
source); machine-integer overflow is not reachable for them.
-/

/-! Section: calendar model (JS `Date`, used by `ContributionGraph.tsx`) -/

/-- Gregorian leap-year rule, as implemented by JS `Date` arithmetic. -/
def isLeap (y : Int) : Bool := y % 4 == 0 && (y % 100 != 0 || y % 400 == 0)

/-- Number of days of month `m0` (0 = January .. 11 = December) of year `y`. -/
def daysInMonth (y : Int) (m0 : Nat) : Nat :=
  match m0 with
  | 0 => 31
  | 1 => if isLeap y then 29 else 28
  | 2 => 31
  | 3 => 30
  | 4 => 31
  | 5 => 30
  | 6 => 31
  | 7 => 31
  | 8 => 30
  | 9 => 31
  | 10 => 30
  | _ => 31

/-- Days of year `y` that lie strictly before month `m0` (0-based month). -/
def daysBeforeMonth (y : Int) : Nat → Nat
  | 0 => 0
  | m + 1 => daysBeforeMonth y m + daysInMonth y m

/-- Days strictly before January 1 of year `y`, counted from January 1 of year 0
(so `daysBeforeYear 0 = 0`); `365 * y` plus the number of leap years in `[0, y)`
(for negative `y`, minus the number of leap years in `[y, 0)`). -/
def daysBeforeYear (y : Int) : Int :=
  365 * y + (y - 1) / 4 - (y - 1) / 100 + (y - 1) / 400

/-- A calendar date, with the fields JS `Date` accessors expose:
`year` = `getFullYear()`, `month0` = `getMonth()` (0 = January),
`day` = `getDate()` (1-based day of month). -/
structure Ymd where
  year : Int
  month0 : Nat
  day : Nat
deriving DecidableEq

/-- A `Ymd` that denotes an actual calendar date. -/
def Ymd.validDate (t : Ymd) : Prop :=
  t.month0 ≤ 11 ∧ 1 ≤ t.day ∧ t.day ≤ daysInMonth t.year t.month0

instance (t : Ymd) : Decidable t.validDate := by
  unfold Ymd.validDate; infer_instance

/-- The calendar date one day later (JS `date.setDate(date.getDate() + 1)`). -/
def nextDay (t : Ymd) : Ymd :=
  if t.day < daysInMonth t.year t.month0 then ⟨t.year, t.month0, t.day + 1⟩
  else if t.month0 < 11 then ⟨t.year, t.month0 + 1, 1⟩
  else ⟨t.year + 1, 0, 1⟩

/-- Linear day number of a date (days since January 1 of year 0). -/
def dayNumber (t : Ymd) : Int :=
  daysBeforeYear t.year + daysBeforeMonth t.year t.month0 + t.day - 1

/-- JS `getDay()`: weekday with 0 = Sunday .. 6 = Saturday.
(January 1 of year 0 falls on a Saturday; `dayNumber` ≡ `getDay` mod 7,
anchored at 1970-01-01 being a Thursday, `getDay = 4`.) -/
def getDayOfWeek (t : Ymd) : Int := dayNumber t % 7

/-- The decimal digit character for `n % 10`. -/
def digitChar (n : Nat) : Char := Char.ofNat (48 + n % 10)

/-- Zero-padded 2-digit decimal rendering (for `n ≤ 99`). -/
def pad2 (n : Nat) : List Char := [digitChar (n / 10), digitChar n]

/-- Zero-padded 4-digit decimal rendering (for `n ≤ 9999`). -/
def pad4 (n : Nat) : List Char :=
  [digitChar (n / 1000), digitChar (n / 100), digitChar (n / 10), digitChar n]

/-- Zero-padded 6-digit decimal rendering (for `n ≤ 999999`). -/
def pad6 (n : Nat) : List Char :=
  [digitChar (n / 100000), digitChar (n / 10000), digitChar (n / 1000),
   digitChar (n / 100), digitChar (n / 10), digitChar n]

/-- Model of `formatDate` in `ContributionGraph.tsx`: `date.toISOString().split("T")[0]`,
i.e. the `YYYY-MM-DD` rendering of the date (expanded `±YYYYYY` form for years
outside `0..9999`, as in ECMA-262 `toISOString`). -/
def formatDate (t : Ymd) : String :=
  let y :=
    if t.year < 0 then '-' :: pad6 (-t.year).toNat
    else if t.year ≤ 9999 then pad4 t.year.toNat
    else '+' :: pad6 t.year.toNat
  String.mk (y ++ '-' :: pad2 (t.month0 + 1) ++ '-' :: pad2 t.day)

/-- The run of `n` consecutive calendar dates starting at `t`. -/
def dateRange (t : Ymd) : Nat → List Ymd
  | 0 => []
  | n + 1 => t :: dateRange (nextDay t) n

/-! Section: contribution level bucketing (`getContributionLevel`) -/

/-- Model of `getContributionLevel` in `ContributionGraph.tsx`. -/
def getContributionLevel (count : Nat) : String :=
  if count = 0 then "level-0"
  else if count ≤ 2 then "level-1"
  else if count ≤ 5 then "level-2"
  else if count ≤ 10 then "level-3"
  else "level-4"

/-- Ordinal index of a level string (`"level-k"` ↦ `k`), for stating
monotonicity of the bucketing. -/
def levelIdx (s : String) : Nat :=
  if s = "level-0" then 0
  else if s = "level-1" then 1
  else if s = "level-2" then 2
  else if s = "level-3" then 3
  else 4

/-! Section: calendar layout builder (`generateWeeksForYear` of `ContributionGraph.tsx`) -/

/-- Model of `CommitData` in `ContributionGraph.tsx`: one record of the aggregate, as the
presentation layer receives it. -/
structure CommitData where
  date : String
  count : Nat
  projects : List String
deriving DecidableEq

/-- Model of `DayData` in `ContributionGraph.tsx`: one day cell of the calendar grid. -/
structure DayData where
  date : String
  count : Nat
  level : String
  projects : List String
deriving DecidableEq

/-- Model of `dateMap.get(dateStr)` where the JS `Map` is modelled as an association
list (first matching key wins; the maps built below have distinct keys). -/
def lookupA (m : List (String × CommitData)) (k : String) : Option CommitData :=
  match m with
  | [] => none
  | (k', v) :: rest => if k' = k then some v else lookupA rest k

/-- One day cell of the loop body of `generateWeeksForYear`:
`count = commitData?.count || 0`, `projects = commitData?.projects || []`,
`level = getContributionLevel(count)`. -/
def mkCell (dateMap : List (String × CommitData)) (t : Ymd) : DayData :=
  let dateStr := formatDate t
  let commitData := lookupA dateMap dateStr
  let count := match commitData with | some c => c.count | none => 0
  let projects := match commitData with | some c => c.projects | none => []
  ⟨dateStr, count, getContributionLevel count, projects⟩

/-- The `while` guard of `generateWeeksForYear`:
`date.getFullYear() <= year || (date.getFullYear() === year + 1 &&
date.getMonth() === 0 && date.getDate() <= 7)`. -/
def loopCond (year : Int) (t : Ymd) : Bool :=
  t.year ≤ year || (t.year == year + 1 && t.month0 == 0 && t.day ≤ 7)

/-- The early-exit test of `generateWeeksForYear`:
`date.getFullYear() > year && date.getMonth() !== 0`. -/
def breakCond (year : Int) (t : Ymd) : Bool :=
  year < t.year && t.month0 != 0

/-- The `while` loop of `generateWeeksForYear`, with `currentWeek`/`weeks`
as explicit accumulators.  The loop always terminates within 379 iterations
(proved below via `generateWeeksForYear_eq_chunks`); `fuel` makes the
recursion structural and is instantiated with 400. -/
def weekLoop (year : Int) (dateMap : List (String × CommitData)) :
    Nat → Ymd → List DayData → List (List DayData) → List (List DayData)
  | 0, _, currentWeek, weeks =>
    weeks ++ if currentWeek.isEmpty then [] else [currentWeek]
  | fuel + 1, date, currentWeek, weeks =>
    if loopCond year date then
      let cw := currentWeek ++ [mkCell dateMap date]
      let flushed := cw.length = 7
      let weeks' := if flushed then weeks ++ [cw] else weeks
      let cw' := if flushed then [] else cw
      let date' := nextDay date
      if breakCond year date' then weeks' ++ if cw'.isEmpty then [] else [cw']
      else weekLoop year dateMap fuel date' cw' weeks'
    else weeks ++ if currentWeek.isEmpty then [] else [currentWeek]

/-- JS `setDate(k)` applied to January 1 of `year` (`k` may be ≤ 0, rolling
back into December of the previous year). -/
def setDateInJan (year : Int) (k : Int) : Ymd :=
  if 1 ≤ k then ⟨year, 0, k.toNat⟩ else ⟨year - 1, 11, (31 + k).toNat⟩

/-- The layout's start date:
`startDate.setDate(startDate.getDate() - firstDay.getDay() + 1)` applied to
`firstDay` = January 1 of `year`, i.e. `setDate(1 - getDay(Jan 1) + 1)`. -/
def startDateFor (year : Int) : Ymd :=
  setDateInJan year (2 - getDayOfWeek ⟨year, 0, 1⟩)

/-- Model of `generateWeeksForYear` in `ContributionGraph.tsx`. -/
def generateWeeksForYear (year : Int) (dateMap : List (String × CommitData)) :
    List (List DayData) :=
  weekLoop year dateMap 400 (startDateFor year) [] []

/-- Grouping of a cell stream into weeks of 7, continuing a partial current
week `cw`; the final partial week is emitted unpadded.  `weekLoop` is proved
to produce exactly this shape. -/
def chunks7From (cw : List DayData) : List DayData → List (List DayData)
  | [] => if cw.isEmpty then [] else [cw]
  | c :: rest =>
    let cw' := cw ++ [c]
    if cw'.length = 7 then cw' :: chunks7From [] rest
    else chunks7From cw' rest

/-! Section: project-name derivation (`extractProjectName` of
`scripts/generate-commits-data.js`, `getProjectName` of `server.ts`) -/

/-- Whether `p` is an initial segment of `s` (on character lists). -/
def leadsWith : List Char → List Char → Bool
  | [], _ => true
  | _ :: _, [] => false
  | p :: ps, c :: cs => p == c && leadsWith ps cs

/-- Attempt of the regex `contributions_report_([^.]+)\.csv` at the current
position: the literal, then a maximal nonempty run of non-dot characters
(`[^.]+` is greedy, and a shorter run would be followed by a non-dot
character, so only the maximal run can be followed by `.`), then `.csv`. -/
def matchHere (cs : List Char) : Option (List Char) :=
  if leadsWith "contributions_report_".toList cs then
    let rest := cs.drop 21
    let tok := rest.takeWhile (fun c => c ≠ '.')
    if tok.isEmpty then none
    else if leadsWith ".csv".toList (rest.drop tok.length) then some tok
    else none
  else none

/-- Leftmost match of the regex `contributions_report_([^.]+)\.csv`
(JS `String.prototype.match` with a non-global, non-anchored regex):
the first position whose attempt succeeds, scanning left to right. -/
def findMatch : List Char → Option (List Char)
  | [] => none
  | c :: cs =>
    match matchHere (c :: cs) with
    | some tok => some tok
    | none => findMatch cs

/-- JS `filename.replace(".csv", "")`: remove the first occurrence of the
substring `.csv` (the whole string unchanged when it does not occur). -/
def removeFirstDotCsv : List Char → List Char
  | [] => []
  | c :: cs =>
    if leadsWith ".csv".toList (c :: cs) then cs.drop 3
    else c :: removeFirstDotCsv cs

/-- Model of `extractProjectName` in `scripts/generate-commits-data.js`:
the captured token upper-cased on a match, otherwise
`filename.replace(".csv", "")`. -/
def extractProjectName (filename : String) : String :=
  match findMatch filename.toList with
  | some tok => String.mk (tok.map Char.toUpper)
  | none => String.mk (removeFirstDotCsv filename.toList)

/-- Model of `getProjectName` in `server.ts`: the captured token upper-cased on a
match, otherwise the filename unchanged. -/
def getProjectName (filename : String) : String :=
  match findMatch filename.toList with
  | some tok => String.mk (tok.map Char.toUpper)
  | none => filename

/-! Section: contribution aggregation (`generate-commits-data.js` lines 38–70 and
`server.ts` lines 52–86 run the identical per-row algorithm; it is embedded
once, parameterized by the producer's project-name function) -/

/-- An ASCII whitespace character (the characters JS `String.prototype.trim`
removes, restricted to ASCII). -/
def isWsChar (c : Char) : Bool :=
  c == ' ' || c == '\t' || c == '\n' || c == '\r' || c == '\x0b' || c == '\x0c'

/-- JS `String.prototype.trim`: strip leading and trailing whitespace. -/
def jsTrim (s : String) : String :=
  String.mk ((((s.toList.dropWhile isWsChar).reverse).dropWhile isWsChar).reverse)

/-- A parsed CSV row, retaining only the field the aggregation reads:
`record.Date` (`none` models a row without a `Date` column value). -/
structure Row where
  Date : Option String
deriving DecidableEq

/-- One input file: its filename and its parsed rows. -/
structure FileInput where
  name : String
  rows : List Row
deriving DecidableEq

/-- The value of one `contributionMap` entry: `{count, projects: Set}`,
the JS `Set` modelled as an insertion-ordered duplicate-free list. -/
structure AggRec where
  count : Nat
  projects : List String
deriving DecidableEq

/-- JS `Set.prototype.add`: append the element unless already present. -/
def addProj (ps : List String) (p : String) : List String :=
  if p ∈ ps then ps else ps ++ [p]

/-- Model of `contributionMap.set(date, ...)` on the
insertion-ordered association list: update the entry for `d` in place, or
append a fresh `{count: 1, projects: {p}}` entry at the end. -/
def updateMap (m : List (String × AggRec)) (d p : String) :
    List (String × AggRec) :=
  match m with
  | [] => [(d, ⟨1, [p]⟩)]
  | (k, r) :: rest =>
    if k = d then (k, ⟨r.count + 1, addProj r.projects p⟩) :: rest
    else (k, r) :: updateMap rest d p

/-- The per-row body: `const date = record.Date?.trim(); if (date) { ... }` —
a missing or all-whitespace `Date` contributes nothing. -/
def processRow (m : List (String × AggRec)) (projectName : String) (r : Row) :
    List (String × AggRec) :=
  match r.Date with
  | none => m
  | some s => if jsTrim s = "" then m else updateMap m (jsTrim s) projectName

/-- The full aggregation over all files: for each file resolve its project
name once, then fold its rows into the contribution map.  `projectNameFn` is
`extractProjectName` in the build script and `getProjectName` in the dev
server; the rest of the algorithm is identical in both. -/
def aggregate (projectNameFn : String → String) (files : List FileInput) :
    List (String × AggRec) :=
  files.foldl
    (fun m f => f.rows.foldl (fun m' r => processRow m' (projectNameFn f.name) r) m)
    []

/-- First-match lookup in the contribution map. -/
def lookupAgg (m : List (String × AggRec)) (k : String) : Option AggRec :=
  match m with
  | [] => none
  | (k', v) :: rest => if k' = k then some v else lookupAgg rest k

/-- The `count` recorded for date `d` (0 when `d` is not a key). -/
def countAt (m : List (String × AggRec)) (d : String) : Nat :=
  match lookupAgg m d with
  | some r => r.count
  | none => 0

/-- The `projects` recorded for date `d` (`[]` when `d` is not a key). -/
def projsAt (m : List (String × AggRec)) (d : String) : List String :=
  match lookupAgg m d with
  | some r => r.projects
  | none => []

/-- The date keys of the contribution map, in insertion order. -/
def keysOf (m : List (String × AggRec)) : List String := m.map Prod.fst

/-- Sum of `count` over the whole contribution map. -/
def totalCount (m : List (String × AggRec)) : Nat := (m.map (fun e => e.2.count)).sum

/-- The project/date pair a row contributes, if any: `(projectName, trimmed
date)` for a row whose trimmed `Date` is nonempty. -/
def rowPair (projectName : String) (r : Row) : Option (String × String) :=
  match r.Date with
  | none => none
  | some s => if jsTrim s = "" then none else some (projectName, jsTrim s)

/-- All contributing `(project, date)` pairs of all files, in processing
order; `aggregate` is proved below to be the left fold of `updateMap` over
this list. -/
def allPairs (projectNameFn : String → String) (files : List FileInput) :
    List (String × String) :=
  files.flatMap (fun f => f.rows.filterMap (rowPair (projectNameFn f.name)))

/-! Section: output artifacts (`generate-commits-data.js` lines 72–82 and
`server.ts` lines 88–97) -/

/-- Model of `ContributionData` in `server.ts` — also the shape of each record of the
build script's JSON artifact. -/
structure ContributionData where
  date : String
  count : Nat
  projects : List String
deriving DecidableEq

/-- An ASCII decimal digit. -/
def isDigitChar (c : Char) : Bool := '0' ≤ c && c ≤ '9'

/-- Lexicographic order on character lists (JS string comparison by code
units; identical to codepoint order on the characters appearing here). -/
def charListLe : List Char → List Char → Bool
  | [], _ => true
  | _ :: _, [] => false
  | a :: as, b :: bs => a < b || (a == b && charListLe as bs)

/-- JS `<=` on strings (the order of the default `Array.prototype.sort`). -/
def strLeP (a b : String) : Prop := charListLe a.toList b.toList = true

instance (a b : String) : Decidable (strLeP a b) :=
  inferInstanceAs (Decidable (_ = true))

/-- Numeric value of a digit run (`digitsToNat [] = 0` never arises: callers
require a nonempty run). -/
def digitsToNat (ds : List Char) : Nat :=
  ds.foldl (fun acc c => acc * 10 + (c.toNat - 48)) 0

/-- JS `new Date(s)` restricted to date-only ISO strings: `YYYY-MM-DD` with a
calendar-valid month and day parses to the date; anything else is an Invalid
Date (`none`). -/
def parseDateStrict (s : String) : Option Ymd :=
  match s.toList with
  | [y1, y2, y3, y4, '-', m1, m2, '-', d1, d2] =>
    if isDigitChar y1 && isDigitChar y2 && isDigitChar y3 && isDigitChar y4 &&
       isDigitChar m1 && isDigitChar m2 && isDigitChar d1 && isDigitChar d2 then
      let y : Int := digitsToNat [y1, y2, y3, y4]
      let m := digitsToNat [m1, m2]
      let d := digitsToNat [d1, d2]
      if 1 ≤ m && m ≤ 12 && 1 ≤ d && d ≤ daysInMonth y (m - 1) then
        some ⟨y, m - 1, d⟩
      else none
    else none
  | _ => none

/-- Timestamp stand-in for the sort comparator
`(a, b) => new Date(b.date) - new Date(a.date)`: the day number for a valid
date string.  An unparseable string gives `NaN` in JS, whose comparator
behavior is not modelled; the sortedness theorem below therefore assumes all
date keys parse. -/
def jsDateVal (s : String) : Int :=
  match parseDateStrict s with
  | some t => dayNumber t
  | none => 0

/-- Descending-date ordering used by the build script's final sort
(record `a` may precede record `b` when `b`'s timestamp is ≤ `a`'s). -/
def dateDescLe (a b : ContributionData) : Prop := jsDateVal b.date ≤ jsDateVal a.date

instance (a b : ContributionData) : Decidable (dateDescLe a b) :=
  inferInstanceAs (Decidable (_ ≤ _))

/-- The build script's output artifact (`generate-commits-data.js` lines
72–79): map entries in insertion order, `projects` in `Set` insertion order,
then a stable sort by date descending (JS `Array.prototype.sort` is stable;
modelled by insertion sort, which is stable). -/
def scriptOutput (files : List FileInput) : List ContributionData :=
  List.insertionSort dateDescLe
    ((aggregate extractProjectName files).map
      (fun e => ContributionData.mk e.1 e.2.count e.2.projects))

/-- The dev server's `/api/commits` response (`server.ts` lines 88–97): map
entries in insertion order — no sort of the records — with `projects` sorted
lexicographically (JS default string sort). -/
def serverOutput (files : List FileInput) : List ContributionData :=
  (aggregate getProjectName files).map
    (fun e => ContributionData.mk e.1 e.2.count
      (List.insertionSort strLeP e.2.projects))

/-! Section: per-year statistics (the `useMemo` block of `ContributionGraph.tsx`,
lines 36–98) -/

/-- Model of `dateMap.set(item.date, item)` on the insertion-ordered association list:
replace in place if the key exists, else append. -/
def mapSet (m : List (String × CommitData)) (d : String) (v : CommitData) :
    List (String × CommitData) :=
  match m with
  | [] => [(d, v)]
  | (k, w) :: rest =>
    if k = d then (k, v) :: rest else (k, w) :: mapSet rest d v

/-- Model of `dateMap` in the `useMemo` block: `data.forEach(item =>
dateMap.set(item.date, item))`. -/
def buildDateMap (data : List CommitData) : List (String × CommitData) :=
  data.foldl (fun m item => mapSet m item.date item) []

/-- Model of `allDates` in the `useMemo` block: `Array.from(dateMap.keys()).sort()` —
the keys in ascending lexicographic order. -/
def allDatesOf (m : List (String × CommitData)) : List String :=
  List.insertionSort strLeP (m.map Prod.fst)

/-- JS `parseInt(s)` (radix 10, with the `0x` hexadecimal prefix case):
leading whitespace skipped, optional sign, then a nonempty digit run; `none`
models `NaN`, including for a bare `0x`/`0X` prefix with no hex digit after
it (ECMA-262: an empty digit string gives NaN). -/
def parseIntOpt (s : String) : Option Int :=
  let cs := s.toList.dropWhile isWsChar
  let (sign, cs) : Int × List Char :=
    match cs with
    | '-' :: rest => (-1, rest)
    | '+' :: rest => (1, rest)
    | rest => (1, rest)
  match cs with
  | '0' :: 'x' :: rest =>
    let hex := rest.takeWhile (fun c =>
      isDigitChar c || ('a' ≤ c && c ≤ 'f') || ('A' ≤ c && c ≤ 'F'))
    if hex.isEmpty then none
    else some (sign * (hex.foldl (fun acc c =>
      acc * 16 + (if isDigitChar c then c.toNat - 48
                  else if 'a' ≤ c then c.toNat - 87 else c.toNat - 55)) 0 : Nat))
  | '0' :: 'X' :: rest =>
    let hex := rest.takeWhile (fun c =>
      isDigitChar c || ('a' ≤ c && c ≤ 'f') || ('A' ≤ c && c ≤ 'F'))
    if hex.isEmpty then none
    else some (sign * (hex.foldl (fun acc c =>
      acc * 16 + (if isDigitChar c then c.toNat - 48
                  else if 'a' ≤ c then c.toNat - 87 else c.toNat - 55)) 0 : Nat))
  | cs =>
    let ds := cs.takeWhile isDigitChar
    if ds.isEmpty then none else some (sign * digitsToNat ds)

/-- The substring of `s` before the first `-` (`s.split("-")[0]`; the whole
string when `-` does not occur). -/
def beforeDash (s : String) : String :=
  String.mk (s.toList.takeWhile (fun c => c ≠ '-'))

/-- Model of `parseInt(date.split("-")[0])`: the year a date key is attributed to
(`none` models `NaN`). -/
def parseYear (date : String) : Option Int := parseIntOpt (beforeDash date)

/-- JS `===` on the modelled numbers: `none` stands for `NaN`, and
`NaN === x` is false for every `x` (including `NaN` itself). -/
def jsNumEq (a b : Option Int) : Bool :=
  match a, b with
  | some x, some y => x == y
  | _, _ => false

/-- JS `Set` built by insertion: duplicate-free, first occurrence kept
(`SameValueZero`: one `NaN` element at most, modelled by `Option Int`
equality on `none`). -/
def dedupeFirst (l : List (Option Int)) : List (Option Int) :=
  l.foldl (fun acc x => if x ∈ acc then acc else acc ++ [x]) []

/-- Comparator order of `years.sort((a, b) => b - a)`: numeric descending;
with a `NaN` operand the JS comparator returns `NaN`, treated as a tie. -/
def yearDescLe (a b : Option Int) : Prop :=
  match a, b with
  | some x, some y => y ≤ x
  | _, _ => True

instance (a b : Option Int) : Decidable (yearDescLe a b) :=
  match a, b with
  | some x, some y => inferInstanceAs (Decidable (y ≤ x))
  | none, none => inferInstanceAs (Decidable True)
  | none, some _ => inferInstanceAs (Decidable True)
  | some _, none => inferInstanceAs (Decidable True)

/-- Model of `years` in the `useMemo` block: the distinct
`parseInt(date.split("-")[0])` values of `allDates` in first-occurrence
order (a JS `Set`), sorted descending. -/
def yearsOf (allDates : List String) : List (Option Int) :=
  List.insertionSort yearDescLe (dedupeFirst (allDates.map parseYear))

/-- Model of `YearlyStats` in `ContributionGraph.tsx` (`projectTotals` is a JS `Map`,
modelled as an insertion-ordered association list). -/
structure YearlyStats where
  year : Option Int
  projectTotals : List (String × Nat)
  total : Nat
deriving DecidableEq

/-- Model of the `projectTotals.set` update:
add `c` to the entry in place, or append `(p, c)`. -/
def bumpTotals (pt : List (String × Nat)) (p : String) (c : Nat) :
    List (String × Nat) :=
  match pt with
  | [] => [(p, c)]
  | (q, n) :: rest =>
    if q = p then (q, n + c) :: rest else (q, n) :: bumpTotals rest p c

/-- The body of the `allDates.forEach` walk for one requested year (the
per-year pass of the `useMemo` block, lines 61–80): on a date of that year,
add the record's count to the running total and — in full — to every
contributing project's entry of `projectTotals`. -/
def yearStep (year : Option Int) (dateMap : List (String × CommitData))
    (acc : List (String × Nat) × Nat) (date : String) :
    List (String × Nat) × Nat :=
  if jsNumEq (parseYear date) year then
    match lookupA dateMap date with
    | some commitData =>
      (commitData.projects.foldl
        (fun pt project => bumpTotals pt project commitData.count) acc.1,
       acc.2 + commitData.count)
    | none => acc
  else acc

/-- One `YearlyStats`: the fold of `yearStep` over `allDates`. -/
def yearSummaryOf (year : Option Int) (allDates : List String)
    (dateMap : List (String × CommitData)) : YearlyStats :=
  let r := allDates.foldl (yearStep year dateMap) ([], 0)
  ⟨year, r.1, r.2⟩

/-- Descending-year order of `yearlyStats` (`(a, b) => b.year - a.year`). -/
def statsDescLe (a b : YearlyStats) : Prop := yearDescLe a.year b.year

instance (a b : YearlyStats) : Decidable (statsDescLe a b) :=
  inferInstanceAs (Decidable (yearDescLe _ _))

/-- Model of `yearlyStats` in the `useMemo` block: one `YearlyStats` per discovered
year, sorted by year descending. -/
def yearlyStatsOf (data : List CommitData) : List YearlyStats :=
  let dateMap := buildDateMap data
  let allDates := allDatesOf dateMap
  let years := yearsOf allDates
  List.insertionSort statsDescLe
    (years.map (fun y => yearSummaryOf y allDates dateMap))

/-- Model of `stats.totalContributions`: the sum of `count` over the `dateMap`
values. -/
def totalContributionsOf (data : List CommitData) : Nat :=
  ((buildDateMap data).map (fun e => e.2.count)).sum

/-- Sum of all per-year totals, as reported by the yearly report cards. -/
def sumYearTotals (data : List CommitData) : Nat :=
  ((yearlyStatsOf data).map (fun s => s.total)).sum

/-- Value of a `projectTotals` entry (`projectTotals.get(p) || 0`). -/
def totalsAt (pt : List (String × Nat)) (p : String) : Nat :=
  match pt with
  | [] => 0
  | (q, n) :: rest => if q = p then n else totalsAt rest p

/-- Property of being sorted by date descending: every adjacent pair of records satisfies
`dateDescLe` (the earlier record's date is ≥ the later one's). -/
def SortedByDateDesc : List ContributionData → Prop
  | [] => True
  | [_] => True
  | a :: b :: rest => dateDescLe a b ∧ SortedByDateDesc (b :: rest)

/-- Decision procedure for `SortedByDateDesc`, by structural recursion (so
that it evaluates on concrete outputs). -/
def sortedByDateDescDec : (l : List ContributionData) → Decidable (SortedByDateDesc l)
  | [] => inferInstanceAs (Decidable True)
  | [_] => inferInstanceAs (Decidable True)
  | _ :: b :: rest =>
    haveI := sortedByDateDescDec (b :: rest)
    inferInstanceAs (Decidable (_ ∧ _))

instance (l : List ContributionData) : Decidable (SortedByDateDesc l) :=
  sortedByDateDescDec l

instance : IsTotal ContributionData dateDescLe :=
  ⟨fun a b => Int.le_total (jsDateVal b.date) (jsDateVal a.date)⟩

instance : IsTrans ContributionData dateDescLe :=
  ⟨fun _ _ _ h1 h2 => le_trans h2 h1⟩

/-- A row with a non-blank `Date` field (after trimming). -/
def rowHasDate (r : Row) : Bool :=
  match r.Date with
  | none => false
  | some s => jsTrim s != ""

/-- A row whose trimmed `Date` field is exactly `d`. -/
def rowDateIs (d : String) (r : Row) : Bool :=
  match r.Date with
  | none => false
  | some s => jsTrim s == d

/-- One step of the pair-level fold. -/
def pairStep (m : List (String × AggRec)) (pr : String × String) :
    List (String × AggRec) := updateMap m pr.2 pr.1

/-- The per-entry invariant of the contribution map: a nonempty,
duplicate-free project set of size at most `count`. -/
def entryInv (e : String × AggRec) : Prop :=
  1 ≤ e.2.projects.length ∧ e.2.projects.length ≤ e.2.count ∧ e.2.projects.Nodup

/-- The `count` a `dateMap` lookup yields for `d` (0 when absent). -/
def dmCountAt (m : List (String × CommitData)) (d : String) : Nat :=
  match lookupA m d with
  | some c => c.count
  | none => 0

/-- The `projects` a `dateMap` lookup yields for `d` (`[]` when absent). -/
def dmProjsAt (m : List (String × CommitData)) (d : String) : List String :=
  match lookupA m d with
  | some c => c.projects
  | none => []

/-- The keys of a `dateMap`, in insertion order. -/
def dmKeysOf (m : List (String × CommitData)) : List String := m.map Prod.fst


theorem lookupAgg_updateMap (m : List (String × AggRec)) (d p k : String) :
    lookupAgg (updateMap m d p) k =
      if k = d then
        some (match lookupAgg m d with
              | none => ⟨1, [p]⟩
              | some r => ⟨r.count + 1, addProj r.projects p⟩)
      else lookupAgg m k := by
  induction m with
  | nil =>
    by_cases h : k = d
    · subst h; simp [updateMap, lookupAgg]
    · simp [updateMap, lookupAgg, h, Ne.symm h]
  | cons e rest ih =>
    obtain ⟨k0, r⟩ := e
    by_cases h0 : k0 = d
    · subst h0
      by_cases hk : k = k0
      · subst hk; simp [updateMap, lookupAgg]
      · simp [updateMap, lookupAgg, hk, Ne.symm hk]
    · by_cases hk : k0 = k
      · subst hk
        have hkd : ¬k0 = d := h0
        simp [updateMap, lookupAgg, h0, hkd]
      · simp [updateMap, lookupAgg, h0, hk, ih]

theorem processRow_eq (m : List (String × AggRec)) (pn : String) (r : Row) :
    processRow m pn r =
      match rowPair pn r with
      | none => m
      | some pr => updateMap m pr.2 pr.1 := by
  unfold processRow rowPair
  cases r.Date with
  | none => rfl
  | some s => by_cases h : jsTrim s = "" <;> simp [h]

theorem foldl_processRow_eq (rows : List Row) (pn : String) (m : List (String × AggRec)) :
    rows.foldl (fun m' r => processRow m' pn r) m =
      (rows.filterMap (rowPair pn)).foldl pairStep m := by
  induction rows generalizing m with
  | nil => rfl
  | cons r rest ih =>
    simp only [List.foldl_cons, List.filterMap_cons]
    rw [processRow_eq]
    cases h : rowPair pn r with
    | none => simp [ih]
    | some pr => simp [ih, pairStep]

theorem aggregate_eq_foldl_pairs (pf : String → String) (files : List FileInput) :
    aggregate pf files = (allPairs pf files).foldl pairStep [] := by
  unfold aggregate allPairs
  generalize ([] : List (String × AggRec)) = m
  induction files generalizing m with
  | nil => rfl
  | cons f rest ih =>
    simp only [List.foldl_cons, List.flatMap_cons, List.foldl_append]
    rw [foldl_processRow_eq, ih]

theorem countAt_updateMap (m : List (String × AggRec)) (d p k : String) :
    countAt (updateMap m d p) k = countAt m k + if k = d then 1 else 0 := by
  unfold countAt
  rw [lookupAgg_updateMap]
  by_cases h : k = d
  · rw [if_pos h, if_pos h, h]
    cases hm : lookupAgg m d <;> simp [hm]
  · simp [h]

theorem countAt_foldl_pairs (prs : List (String × String)) (m : List (String × AggRec)) (d : String) :
    countAt (prs.foldl pairStep m) d = countAt m d + prs.countP (fun pr => pr.2 == d) := by
  induction prs generalizing m with
  | nil => simp [List.countP_nil]
  | cons pr rest ih =>
    simp only [List.foldl_cons, List.countP_cons]
    rw [ih]
    simp only [pairStep]
    rw [countAt_updateMap]
    by_cases h : pr.2 = d
    · simp only [h, beq_self_eq_true, if_pos rfl, if_true]
      omega
    · have h2 : ¬(d = pr.2) := fun hh => h hh.symm
      simp only [if_neg h2, beq_iff_eq, if_neg h]
      omega

theorem mem_addProj (ps : List String) (p q : String) :
    q ∈ addProj ps p ↔ q ∈ ps ∨ q = p := by
  unfold addProj
  by_cases h : p ∈ ps
  · simp only [if_pos h]
    constructor
    · exact Or.inl
    · rintro (hq | hq)
      · exact hq
      · exact hq ▸ h
  · simp [h]

theorem projsAt_updateMap_mem (m : List (String × AggRec)) (d p k q : String) :
    q ∈ projsAt (updateMap m d p) k ↔ q ∈ projsAt m k ∨ (k = d ∧ q = p) := by
  unfold projsAt
  rw [lookupAgg_updateMap]
  by_cases h : k = d
  · rw [if_pos h, h]
    cases hm : lookupAgg m d <;> simp [hm, mem_addProj]
  · simp [h]

theorem projsAt_foldl_pairs (prs : List (String × String)) (m : List (String × AggRec)) (d q : String) :
    q ∈ projsAt (prs.foldl pairStep m) d ↔ q ∈ projsAt m d ∨ (q, d) ∈ prs := by
  induction prs generalizing m with
  | nil => simp
  | cons pr rest ih =>
    simp only [List.foldl_cons, List.mem_cons]
    rw [ih]
    simp only [pairStep]
    rw [projsAt_updateMap_mem]
    have : ((q, d) = pr) ↔ (q = pr.1 ∧ d = pr.2) := by
      rw [Prod.ext_iff]
    rw [this]
    tauto

theorem keysOf_updateMap_mem (m : List (String × AggRec)) (d p k : String) :
    k ∈ keysOf (updateMap m d p) ↔ k ∈ keysOf m ∨ k = d := by
  unfold keysOf
  induction m with
  | nil => simp [updateMap]
  | cons e rest ih =>
    obtain ⟨k0, r⟩ := e
    by_cases h0 : k0 = d
    · subst h0
      simp only [updateMap, eq_self_iff_true, ite_true, List.map_cons, List.mem_cons]
      tauto
    · simp only [updateMap, if_neg h0, List.map_cons, List.mem_cons]
      rw [ih]
      tauto

theorem keysOf_foldl_pairs (prs : List (String × String)) (m : List (String × AggRec)) (d : String) :
    d ∈ keysOf (prs.foldl pairStep m) ↔ d ∈ keysOf m ∨ ∃ pr ∈ prs, pr.2 = d := by
  induction prs generalizing m with
  | nil => simp
  | cons pr rest ih =>
    simp only [List.foldl_cons, List.mem_cons]
    rw [ih]
    simp only [pairStep]
    rw [keysOf_updateMap_mem]
    constructor
    · rintro ((h | h) | ⟨x, hx, h⟩)
      · exact Or.inl h
      · exact Or.inr ⟨pr, Or.inl rfl, h.symm⟩
      · exact Or.inr ⟨x, Or.inr hx, h⟩
    · rintro (h | ⟨x, hx | hx, h⟩)
      · exact Or.inl (Or.inl h)
      · subst hx; exact Or.inl (Or.inr h.symm)
      · exact Or.inr ⟨x, hx, h⟩

theorem totalCount_updateMap (m : List (String × AggRec)) (d p : String) :
    totalCount (updateMap m d p) = totalCount m + 1 := by
  unfold totalCount
  induction m with
  | nil => simp [updateMap]
  | cons e rest ih =>
    obtain ⟨k0, r⟩ := e
    by_cases h0 : k0 = d
    · subst h0
      simp only [updateMap, eq_self_iff_true, ite_true, List.map_cons, List.sum_cons]
      omega
    · simp only [updateMap, if_neg h0, List.map_cons, List.sum_cons]
      omega

theorem totalCount_foldl_pairs (prs : List (String × String)) (m : List (String × AggRec)) :
    totalCount (prs.foldl pairStep m) = totalCount m + prs.length := by
  induction prs generalizing m with
  | nil => simp
  | cons pr rest ih =>
    simp only [List.foldl_cons, List.length_cons]
    rw [ih]
    simp only [pairStep]
    rw [totalCount_updateMap]
    omega

theorem rowPair_isSome (pn : String) (r : Row) :
    (rowPair pn r).isSome = rowHasDate r := by
  unfold rowPair rowHasDate
  cases r.Date with
  | none => rfl
  | some s =>
    by_cases h : jsTrim s = "" <;> simp [h]

theorem length_filterMap_rowPair (rows : List Row) (pn : String) :
    (rows.filterMap (rowPair pn)).length = rows.countP rowHasDate := by
  induction rows with
  | nil => simp [List.countP_nil]
  | cons r rest ih =>
    simp only [List.filterMap_cons, List.countP_cons]
    have := rowPair_isSome pn r
    cases hp : rowPair pn r with
    | none =>
      rw [hp] at this
      simp only [Option.isSome_none] at this
      rw [ih, ← this]
      simp
    | some pr =>
      rw [hp] at this
      simp only [Option.isSome_some] at this
      simp only [List.length_cons]
      rw [ih, ← this]
      simp

theorem rowDateIs_of_rowPair_none (pn d : String) (r : Row) (hd : d ≠ "")
    (hp : rowPair pn r = none) : rowDateIs d r = false := by
  unfold rowPair at hp
  unfold rowDateIs
  cases hr : r.Date with
  | none => rfl
  | some s =>
    rw [hr] at hp
    dsimp only at hp ⊢
    by_cases h : jsTrim s = ""
    · rw [h]
      simp only [beq_eq_false_iff_ne, ne_eq]
      exact fun hh => hd hh.symm
    · rw [if_neg h] at hp
      exact absurd hp (by simp)

theorem rowDateIs_of_rowPair_some (pn d : String) (r : Row) (pr : String × String)
    (hp : rowPair pn r = some pr) : rowDateIs d r = (pr.2 == d) := by
  unfold rowPair at hp
  unfold rowDateIs
  cases hr : r.Date with
  | none => rw [hr] at hp; exact absurd hp (by simp)
  | some s =>
    rw [hr] at hp
    dsimp only at hp ⊢
    by_cases h : jsTrim s = ""
    · rw [if_pos h] at hp; exact absurd hp (by simp)
    · rw [if_neg h] at hp
      have : pr = (pn, jsTrim s) := (Option.some_injective _ hp).symm
      rw [this]

theorem countP_filterMap_rowPair (rows : List Row) (pn d : String) (hd : d ≠ "") :
    (rows.filterMap (rowPair pn)).countP (fun pr => pr.2 == d) =
      rows.countP (rowDateIs d) := by
  induction rows with
  | nil => simp [List.countP_nil]
  | cons r rest ih =>
    simp only [List.filterMap_cons, List.countP_cons]
    cases hp : rowPair pn r with
    | none =>
      rw [ih, rowDateIs_of_rowPair_none pn d r hd hp]
      simp
    | some pr =>
      simp only [List.countP_cons]
      rw [ih, rowDateIs_of_rowPair_some pn d r pr hp]

theorem length_allPairs (pf : String → String) (files : List FileInput) :
    (allPairs pf files).length = (files.map (fun f => f.rows.countP rowHasDate)).sum := by
  unfold allPairs
  induction files with
  | nil => simp
  | cons f rest ih =>
    simp only [List.flatMap_cons, List.length_append, List.map_cons, List.sum_cons]
    rw [ih, length_filterMap_rowPair]

theorem countP_allPairs (pf : String → String) (files : List FileInput) (d : String) (hd : d ≠ "") :
    (allPairs pf files).countP (fun pr => pr.2 == d) =
      (files.map (fun f => f.rows.countP (rowDateIs d))).sum := by
  unfold allPairs
  induction files with
  | nil => simp [List.countP_nil]
  | cons f rest ih =>
    simp only [List.flatMap_cons, List.countP_append, List.map_cons, List.sum_cons]
    rw [ih, countP_filterMap_rowPair _ _ _ hd]

theorem rowDateIs_true_of_pair (pn d : String) (r : Row) (pr : String × String)
    (hp : rowPair pn r = some pr) (h2 : pr.2 = d) : rowDateIs d r = true := by
  rw [rowDateIs_of_rowPair_some pn d r pr hp, h2]
  simp

theorem pair_of_rowDateIs (pn d : String) (r : Row) (hd : d ≠ "")
    (h : rowDateIs d r = true) : rowPair pn r = some (pn, d) := by
  unfold rowDateIs at h
  unfold rowPair
  cases hr : r.Date with
  | none => rw [hr] at h; exact absurd h (by simp)
  | some s =>
    rw [hr] at h
    dsimp only at h ⊢
    have hsd : jsTrim s = d := by simpa using h
    rw [if_neg (hsd ▸ hd), hsd]

/-- Claim C6: for every set of input files, the sum of `count` over the
aggregate equals the number of parsed rows whose trimmed `Date` is
non-blank; each such row is counted under its trimmed date key; and a date
is a key of the aggregate exactly when some row's trimmed `Date` equals it
(rows with blank or absent `Date` contribute to no key).  This holds for
both producers (any project-name function `pf`). -/
theorem c6_aggregation_counts_rows (pf : String → String) (files : List FileInput)
    (d : String) (hd : d ≠ "") :
    totalCount (aggregate pf files) = (files.map (fun f => f.rows.countP rowHasDate)).sum
    ∧ countAt (aggregate pf files) d = (files.map (fun f => f.rows.countP (rowDateIs d))).sum
    ∧ (d ∈ keysOf (aggregate pf files) ↔ ∃ f ∈ files, ∃ r ∈ f.rows, rowDateIs d r = true) := by
  rw [aggregate_eq_foldl_pairs]
  refine ⟨?_, ?_, ?_⟩
  · rw [totalCount_foldl_pairs, length_allPairs]
    simp [totalCount]
  · rw [countAt_foldl_pairs, countP_allPairs pf files d hd]
    simp [countAt, lookupAgg]
  · rw [keysOf_foldl_pairs]
    simp only [keysOf, List.map_nil, List.not_mem_nil, false_or]
    unfold allPairs
    constructor
    · rintro ⟨pr, hpr, h2⟩
      rw [List.mem_flatMap] at hpr
      obtain ⟨f, hf, hpr⟩ := hpr
      rw [List.mem_filterMap] at hpr
      obtain ⟨r, hr, hp⟩ := hpr
      exact ⟨f, hf, r, hr, rowDateIs_true_of_pair _ d r pr hp h2⟩
    · rintro ⟨f, hf, r, hr, h⟩
      refine ⟨(pf f.name, d), ?_, rfl⟩
      rw [List.mem_flatMap]
      exact ⟨f, hf, List.mem_filterMap.mpr ⟨r, hr, pair_of_rowDateIs _ d r hd h⟩⟩

/-- Witness for C6 at the spec's whitespace scenario: one file whose single
row has `Date` `"  2024-01-05  "`; the row is counted, under the trimmed key
`"2024-01-05"`. -/
theorem c6_witness :
    totalCount (aggregate extractProjectName [⟨"a.csv", [⟨some "  2024-01-05  "⟩]⟩]) =
      (([⟨"a.csv", [⟨some "  2024-01-05  "⟩]⟩] : List FileInput).map
        (fun f => f.rows.countP rowHasDate)).sum
    ∧ countAt (aggregate extractProjectName [⟨"a.csv", [⟨some "  2024-01-05  "⟩]⟩]) "2024-01-05" =
      (([⟨"a.csv", [⟨some "  2024-01-05  "⟩]⟩] : List FileInput).map
        (fun f => f.rows.countP (rowDateIs "2024-01-05"))).sum
    ∧ ("2024-01-05" ∈ keysOf (aggregate extractProjectName [⟨"a.csv", [⟨some "  2024-01-05  "⟩]⟩]) ↔
        ∃ f ∈ ([⟨"a.csv", [⟨some "  2024-01-05  "⟩]⟩] : List FileInput), ∃ r ∈ f.rows,
          rowDateIs "2024-01-05" r = true) :=
  c6_aggregation_counts_rows extractProjectName _ "2024-01-05" (by decide)

/-- Claim C9: aggregation is order-independent — permuting the input files
yields an aggregate with the same date keys, the same `count` for every key,
and the same set of `projects` for every key (insertion *order* of keys and
projects may differ, which the claim does not constrain).  Holds for both
producers (any project-name function `pf`). -/
theorem c9_aggregation_perm_invariant (pf : String → String)
    (files1 files2 : List FileInput) (hperm : files1.Perm files2) (d p : String) :
    (d ∈ keysOf (aggregate pf files1) ↔ d ∈ keysOf (aggregate pf files2))
    ∧ countAt (aggregate pf files1) d = countAt (aggregate pf files2) d
    ∧ (p ∈ projsAt (aggregate pf files1) d ↔ p ∈ projsAt (aggregate pf files2) d) := by
  have hp : (allPairs pf files1).Perm (allPairs pf files2) :=
    List.Perm.flatMap_right _ hperm
  rw [aggregate_eq_foldl_pairs, aggregate_eq_foldl_pairs]
  refine ⟨?_, ?_, ?_⟩
  · rw [keysOf_foldl_pairs, keysOf_foldl_pairs]
    constructor
    · rintro (h | ⟨pr, hpr, h2⟩)
      · exact Or.inl h
      · exact Or.inr ⟨pr, hp.mem_iff.mp hpr, h2⟩
    · rintro (h | ⟨pr, hpr, h2⟩)
      · exact Or.inl h
      · exact Or.inr ⟨pr, hp.mem_iff.mpr hpr, h2⟩
  · rw [countAt_foldl_pairs, countAt_foldl_pairs, List.Perm.countP_eq _ hp]
  · rw [projsAt_foldl_pairs, projsAt_foldl_pairs, hp.mem_iff]

theorem c9_witness :
    ("2024-03-01" ∈ keysOf (aggregate extractProjectName
        [⟨"a.csv", [⟨some "2024-03-01"⟩]⟩, ⟨"b.csv", [⟨some "2024-03-02"⟩]⟩]) ↔
      "2024-03-01" ∈ keysOf (aggregate extractProjectName
        [⟨"b.csv", [⟨some "2024-03-02"⟩]⟩, ⟨"a.csv", [⟨some "2024-03-01"⟩]⟩]))
    ∧ countAt (aggregate extractProjectName
        [⟨"a.csv", [⟨some "2024-03-01"⟩]⟩, ⟨"b.csv", [⟨some "2024-03-02"⟩]⟩]) "2024-03-01" =
      countAt (aggregate extractProjectName
        [⟨"b.csv", [⟨some "2024-03-02"⟩]⟩, ⟨"a.csv", [⟨some "2024-03-01"⟩]⟩]) "2024-03-01"
    ∧ ("a" ∈ projsAt (aggregate extractProjectName
        [⟨"a.csv", [⟨some "2024-03-01"⟩]⟩, ⟨"b.csv", [⟨some "2024-03-02"⟩]⟩]) "2024-03-01" ↔
      "a" ∈ projsAt (aggregate extractProjectName
        [⟨"b.csv", [⟨some "2024-03-02"⟩]⟩, ⟨"a.csv", [⟨some "2024-03-01"⟩]⟩]) "2024-03-01") :=
  c9_aggregation_perm_invariant extractProjectName _ _
    (List.Perm.swap _ _ _) "2024-03-01" "a"

theorem addProj_length_le (ps : List String) (p : String) :
    (addProj ps p).length ≤ ps.length + 1 := by
  unfold addProj
  by_cases h : p ∈ ps <;> simp [h]

theorem addProj_length_ge (ps : List String) (p : String) :
    ps.length ≤ (addProj ps p).length := by
  unfold addProj
  by_cases h : p ∈ ps <;> simp [h]

theorem addProj_nodup (ps : List String) (p : String) (h : ps.Nodup) :
    (addProj ps p).Nodup := by
  unfold addProj
  by_cases hm : p ∈ ps
  · simpa [hm] using h
  · simp only [if_neg hm]
    rw [List.nodup_append]
    exact ⟨h, List.nodup_singleton p, by simpa using hm⟩

theorem entryInv_updateMap (m : List (String × AggRec)) (d p : String)
    (h : ∀ e ∈ m, entryInv e) : ∀ e ∈ updateMap m d p, entryInv e := by
  induction m with
  | nil =>
    intro e he
    simp only [updateMap, List.mem_singleton] at he
    subst he
    exact ⟨by simp, by simp, by simp⟩
  | cons e0 rest ih =>
    obtain ⟨k0, r⟩ := e0
    by_cases h0 : k0 = d
    · subst h0
      intro e he
      simp only [updateMap, eq_self_iff_true, ite_true, List.mem_cons] at he
      rcases he with he | he
      · subst he
        have hr := h (k0, r) (List.mem_cons_self _ _)
        obtain ⟨h1, h2, h3⟩ := hr
        refine ⟨?_, ?_, addProj_nodup _ _ h3⟩
        · have := addProj_length_ge r.projects p
          simp only [entryInv] at *
          omega
        · have := addProj_length_le r.projects p
          simp only [entryInv] at *
          omega
      · exact h e (List.mem_cons_of_mem _ he)
    · intro e he
      simp only [updateMap, if_neg h0, List.mem_cons] at he
      rcases he with he | he
      · subst he
        exact h _ (List.mem_cons_self _ _)
      · exact ih (fun e' he' => h e' (List.mem_cons_of_mem _ he')) e he

theorem entryInv_foldl_pairs (prs : List (String × String)) (m : List (String × AggRec))
    (h : ∀ e ∈ m, entryInv e) : ∀ e ∈ prs.foldl pairStep m, entryInv e := by
  induction prs generalizing m with
  | nil => exact h
  | cons pr rest ih =>
    simp only [List.foldl_cons]
    exact ih _ (entryInv_updateMap _ _ _ h)

/-- Claim C10: every record of the aggregate has a non-empty,
duplicate-free project set of size at most its `count` — so
`1 ≤ |projects| ≤ count` for every entry, for both producers. -/
theorem c10_projects_bounded (pf : String → String) (files : List FileInput)
    (e : String × AggRec) (he : e ∈ aggregate pf files) :
    1 ≤ e.2.projects.length ∧ e.2.projects.length ≤ e.2.count ∧ e.2.projects.Nodup := by
  rw [aggregate_eq_foldl_pairs] at he
  exact entryInv_foldl_pairs _ [] (by simp) e he

theorem c10_witness :
    1 ≤ (("2024-03-01", AggRec.mk 2 ["ALPHA", "BETA"]).2.projects).length
    ∧ (("2024-03-01", AggRec.mk 2 ["ALPHA", "BETA"]).2.projects).length ≤
        ("2024-03-01", AggRec.mk 2 ["ALPHA", "BETA"]).2.count
    ∧ (("2024-03-01", AggRec.mk 2 ["ALPHA", "BETA"]).2.projects).Nodup :=
  c10_projects_bounded extractProjectName
    [⟨"contributions_report_alpha.csv", [⟨some "2024-03-01"⟩]⟩,
     ⟨"contributions_report_beta.csv", [⟨some "2024-03-01"⟩, ⟨some "2024-03-02"⟩]⟩]
    ("2024-03-01", AggRec.mk 2 ["ALPHA", "BETA"]) (by decide)

theorem pairwise_sortedByDateDesc (l : List ContributionData)
    (h : List.Pairwise dateDescLe l) : SortedByDateDesc l := by
  induction l with
  | nil => trivial
  | cons a rest ih =>
    cases rest with
    | nil => trivial
    | cons b rest2 =>
      rw [List.pairwise_cons] at h
      exact ⟨h.1 b (List.mem_cons_self _ _), ih h.2⟩

/-- Claim C2 counterexample: for the single file `a.csv` with rows dated
`2024-01-01` then `2024-03-01`, the dev server's response lists the records
in first-seen order — ascending — so the artifact it delivers is *not*
sorted by date descending. -/
theorem c2_counterexample :
    ¬ SortedByDateDesc
        (serverOutput [⟨"a.csv", [⟨some "2024-01-01"⟩, ⟨some "2024-03-01"⟩]⟩]) := by
  decide

/-- Claim C2 amended: the build script's artifact is sorted by date
descending (stated for inputs whose date keys all parse as dates, where the
embedded comparator provably models `new Date(b.date) - new Date(a.date)`);
the dev server's response is in first-seen key order instead. -/
theorem c2_script_output_sorted (files : List FileInput)
    (h : ∀ e ∈ scriptOutput files, (parseDateStrict e.date).isSome = true) :
    SortedByDateDesc (scriptOutput files) := by
  apply pairwise_sortedByDateDesc
  exact List.sorted_insertionSort dateDescLe _

theorem c2_witness :
    (∀ e ∈ scriptOutput [⟨"a.csv", [⟨some "2024-01-01"⟩, ⟨some "2024-03-01"⟩]⟩],
      (parseDateStrict e.date).isSome = true)
    ∧ SortedByDateDesc (scriptOutput [⟨"a.csv", [⟨some "2024-01-01"⟩, ⟨some "2024-03-01"⟩]⟩]) :=
  ⟨by decide, c2_script_output_sorted _ (by decide)⟩

/-- Claim C4 counterexample: on the non-matching filename `data.csv` the two
producers disagree — the build script strips the `.csv` and yields `data`
while the dev server returns `data.csv` unchanged. -/
theorem c4_counterexample :
    extractProjectName "data.csv" ≠ getProjectName "data.csv" := by decide

/-- Claim C4 amended: on a filename matching
`contributions_report_<token>.csv` both producers derive the same project
name, the captured token upper-cased; on non-matching filenames the build
script removes the first `.csv` occurrence while the dev server keeps the
filename unchanged, so they can disagree. -/
theorem c4_producers_agree_on_match (fn : String) (tok : List Char)
    (h : findMatch fn.toList = some tok) :
    extractProjectName fn = getProjectName fn
    ∧ extractProjectName fn = String.mk (tok.map Char.toUpper) := by
  unfold extractProjectName getProjectName
  rw [h]
  exact ⟨rfl, rfl⟩

theorem c4_witness :
    extractProjectName "contributions_report_alpha.csv" =
      getProjectName "contributions_report_alpha.csv"
    ∧ extractProjectName "contributions_report_alpha.csv" =
      String.mk ("alpha".toList.map Char.toUpper) :=
  c4_producers_agree_on_match "contributions_report_alpha.csv" "alpha".toList (by decide)

theorem levelIdx_getContributionLevel (n : Nat) :
    levelIdx (getContributionLevel n) =
      if n = 0 then 0 else if n ≤ 2 then 1 else if n ≤ 5 then 2
      else if n ≤ 10 then 3 else 4 := by
  unfold getContributionLevel
  split_ifs <;> simp [levelIdx]

/-- Claim C8: the contribution-level bucketing is the stated step function
of `count` — 0 ↦ level-0, 1–2 ↦ level-1, 3–5 ↦ level-2, 6–10 ↦ level-3,
11+ ↦ level-4, upper bounds inclusive — and is monotone in `count`. -/
theorem c8_level_bucketing (n m : Nat) (hnm : n ≤ m) :
    (getContributionLevel n = "level-0" ↔ n = 0)
    ∧ (getContributionLevel n = "level-1" ↔ 1 ≤ n ∧ n ≤ 2)
    ∧ (getContributionLevel n = "level-2" ↔ 3 ≤ n ∧ n ≤ 5)
    ∧ (getContributionLevel n = "level-3" ↔ 6 ≤ n ∧ n ≤ 10)
    ∧ (getContributionLevel n = "level-4" ↔ 11 ≤ n)
    ∧ levelIdx (getContributionLevel n) ≤ levelIdx (getContributionLevel m) := by
  refine ⟨?_, ?_, ?_, ?_, ?_, ?_⟩
  · unfold getContributionLevel
    split_ifs <;> simp_all <;> omega
  · unfold getContributionLevel
    split_ifs <;> simp_all <;> omega
  · unfold getContributionLevel
    split_ifs <;> simp_all <;> omega
  · unfold getContributionLevel
    split_ifs <;> simp_all <;> omega
  · unfold getContributionLevel
    split_ifs <;> simp_all <;> omega
  · rw [levelIdx_getContributionLevel, levelIdx_getContributionLevel]
    split_ifs <;> omega

theorem c8_witness :
    (getContributionLevel 5 = "level-0" ↔ 5 = 0)
    ∧ (getContributionLevel 5 = "level-1" ↔ 1 ≤ 5 ∧ 5 ≤ 2)
    ∧ (getContributionLevel 5 = "level-2" ↔ 3 ≤ 5 ∧ 5 ≤ 5)
    ∧ (getContributionLevel 5 = "level-3" ↔ 6 ≤ 5 ∧ 5 ≤ 10)
    ∧ (getContributionLevel 5 = "level-4" ↔ 11 ≤ 5)
    ∧ levelIdx (getContributionLevel 5) ≤ levelIdx (getContributionLevel 11) :=
  c8_level_bucketing 5 11 (by decide)

theorem lookupA_mapSet (m : List (String × CommitData)) (d k : String) (v : CommitData) :
    lookupA (mapSet m d v) k = if k = d then some v else lookupA m k := by
  induction m with
  | nil =>
    by_cases h : k = d
    · subst h; simp [mapSet, lookupA]
    · simp [mapSet, lookupA, h, Ne.symm h]
  | cons e rest ih =>
    obtain ⟨k0, w⟩ := e
    by_cases h0 : k0 = d
    · subst h0
      by_cases hk : k = k0
      · subst hk; simp [mapSet, lookupA]
      · simp [mapSet, lookupA, hk, Ne.symm hk]
    · by_cases hk : k0 = k
      · subst hk
        have : ¬k0 = d := h0
        simp [mapSet, lookupA, h0, this]
      · simp [mapSet, lookupA, h0, hk, ih]

theorem dmKeysOf_mapSet (m : List (String × CommitData)) (d : String) (v : CommitData) :
    dmKeysOf (mapSet m d v) =
      if d ∈ dmKeysOf m then dmKeysOf m else dmKeysOf m ++ [d] := by
  unfold dmKeysOf
  induction m with
  | nil => simp [mapSet]
  | cons e rest ih =>
    obtain ⟨k0, w⟩ := e
    by_cases h0 : k0 = d
    · subst h0
      simp [mapSet]
    · simp only [mapSet, if_neg h0, List.map_cons, List.mem_cons]
      rw [ih]
      by_cases hm : d ∈ List.map Prod.fst rest
      · simp [hm, h0]
      · have hdk : ¬(d = k0) := fun h => h0 h.symm
        simp [hm, hdk]

theorem dmKeysOf_buildDateMap_nodup (data : List CommitData) :
    (dmKeysOf (buildDateMap data)).Nodup := by
  unfold buildDateMap
  have main : ∀ (l : List CommitData) (m : List (String × CommitData)),
      (dmKeysOf m).Nodup → (dmKeysOf (l.foldl (fun m item => mapSet m item.date item) m)).Nodup := by
    intro l
    induction l with
    | nil => intro m h; exact h
    | cons item rest ih =>
      intro m h
      simp only [List.foldl_cons]
      apply ih
      rw [dmKeysOf_mapSet]
      by_cases hm : item.date ∈ dmKeysOf m
      · simpa [hm] using h
      · simp only [if_neg hm]
        rw [List.nodup_append]
        exact ⟨h, List.nodup_singleton _, by simpa using hm⟩
  exact main data [] (by simp [dmKeysOf])

theorem mem_dmKeysOf_buildDateMap (data : List CommitData) (d : String)
    (hd : d ∈ dmKeysOf (buildDateMap data)) : ∃ item ∈ data, item.date = d := by
  unfold buildDateMap at hd
  have main : ∀ (l : List CommitData) (m : List (String × CommitData)),
      d ∈ dmKeysOf (l.foldl (fun m item => mapSet m item.date item) m) →
      d ∈ dmKeysOf m ∨ ∃ item ∈ l, item.date = d := by
    intro l
    induction l with
    | nil => intro m h; exact Or.inl h
    | cons item rest ih =>
      intro m h
      simp only [List.foldl_cons] at h
      rcases ih _ h with h' | ⟨x, hx, hxd⟩
      · rw [dmKeysOf_mapSet] at h'
        by_cases hm : item.date ∈ dmKeysOf m
        · rw [if_pos hm] at h'
          exact Or.inl h'
        · rw [if_neg hm] at h'
          rcases List.mem_append.mp h' with h' | h'
          · exact Or.inl h'
          · exact Or.inr ⟨item, List.mem_cons_self _ _, (List.mem_singleton.mp h').symm⟩
      · exact Or.inr ⟨x, List.mem_cons_of_mem _ hx, hxd⟩
  rcases main data [] hd with h | h
  · simp [dmKeysOf] at h
  · exact h

theorem values_buildDateMap_mem (data : List CommitData) (e : String × CommitData)
    (he : e ∈ buildDateMap data) : e.2 ∈ data := by
  unfold buildDateMap at he
  have main : ∀ (l : List CommitData) (m : List (String × CommitData)),
      e ∈ l.foldl (fun m item => mapSet m item.date item) m →
      e ∈ m ∨ e.2 ∈ l := by
    intro l
    induction l with
    | nil => intro m h; exact Or.inl h
    | cons item rest ih =>
      intro m h
      simp only [List.foldl_cons] at h
      rcases ih _ h with h' | h'
      · have hm : ∀ (m' : List (String × CommitData)), e ∈ mapSet m' item.date item →
            e ∈ m' ∨ e.2 = item := by
          intro m'
          induction m' with
          | nil => intro hh; simp [mapSet] at hh; exact Or.inr (by rw [hh])
          | cons e0 rest0 ih0 =>
            obtain ⟨k0, w⟩ := e0
            intro hh
            by_cases h0 : k0 = item.date
            · subst h0
              simp only [mapSet, eq_self_iff_true, ite_true, List.mem_cons] at hh
              rcases hh with hh | hh
              · exact Or.inr (by rw [hh])
              · exact Or.inl (List.mem_cons_of_mem _ hh)
            · simp only [mapSet, if_neg h0, List.mem_cons] at hh
              rcases hh with hh | hh
              · exact Or.inl (by rw [hh]; exact List.mem_cons_self _ _)
              · rcases ih0 hh with h2 | h2
                · exact Or.inl (List.mem_cons_of_mem _ h2)
                · exact Or.inr h2
        rcases hm _ h' with h2 | h2
        · exact Or.inl h2
        · exact Or.inr (by rw [h2]; exact List.mem_cons_self _ _)
      · exact Or.inr (List.mem_cons_of_mem _ h')
  rcases main data [] he with h | h
  · simp at h
  · exact h

theorem sum_map_ite_filter (ds : List String) (p : String → Bool) (f : String → Nat) :
    ((ds.filter p).map f).sum = (ds.map (fun d => if p d then f d else 0)).sum := by
  induction ds with
  | nil => simp
  | cons d rest ih =>
    simp only [List.filter_cons, List.map_cons, List.sum_cons]
    by_cases h : p d = true
    · simp [h, ih]
    · simp [h, ih]

theorem sum_map_add_distrib (ds : List String) (a b : String → Nat) :
    (ds.map (fun d => a d + b d)).sum = (ds.map a).sum + (ds.map b).sum := by
  induction ds with
  | nil => simp
  | cons d rest ih =>
    simp only [List.map_cons, List.sum_cons]
    rw [ih]
    omega

theorem sum_swap_years (ys : List (Option Int)) (ds : List String)
    (g : Option Int → String → Nat) :
    (ys.map (fun y => (ds.map (g y)).sum)).sum =
      (ds.map (fun d => (ys.map (fun y => g y d)).sum)).sum := by
  induction ys with
  | nil => simp
  | cons y rest ih =>
    simp only [List.map_cons, List.sum_cons]
    rw [ih, ← sum_map_add_distrib]

theorem jsNumEq_some_false (n : Int) (y : Option Int) (hy : y ≠ some n) :
    jsNumEq (some n) y = false := by
  cases y with
  | none => rfl
  | some k =>
    simp only [jsNumEq, beq_eq_false_iff_ne, ne_eq]
    intro hh
    exact hy (by rw [hh])

theorem sum_ite_eq_zero_of_not_mem (ys : List (Option Int)) (n : Int) (c : Nat)
    (h : some n ∉ ys) :
    (ys.map (fun y => if jsNumEq (some n) y then c else 0)).sum = 0 := by
  induction ys with
  | nil => simp
  | cons y rest ih =>
    simp only [List.map_cons, List.sum_cons]
    have hy : y ≠ some n := fun hh => h (hh ▸ List.mem_cons_self _ _)
    rw [jsNumEq_some_false n y hy]
    simp only [Bool.false_eq_true, if_false, Nat.zero_add]
    exact ih (fun hh => h (List.mem_cons_of_mem _ hh))

theorem sum_ite_single (ys : List (Option Int)) (n : Int) (c : Nat)
    (hnd : ys.Nodup) (hmem : some n ∈ ys) :
    (ys.map (fun y => if jsNumEq (some n) y then c else 0)).sum = c := by
  induction ys with
  | nil => simp at hmem
  | cons y rest ih =>
    simp only [List.map_cons, List.sum_cons]
    rcases List.mem_cons.mp hmem with hy | hy
    · subst hy
      have h1 : jsNumEq (some n) (some n) = true := by simp [jsNumEq]
      rw [h1]
      have hnotin : some n ∉ rest := (List.nodup_cons.mp hnd).1
      rw [sum_ite_eq_zero_of_not_mem rest n c hnotin]
      simp
    · have hyn : y ≠ some n := by
        intro hh
        subst hh
        exact (List.nodup_cons.mp hnd).1 hy
      rw [jsNumEq_some_false n y hyn]
      simp only [Bool.false_eq_true, if_false, Nat.zero_add]
      exact ih (List.nodup_cons.mp hnd).2 hy

theorem mem_dedupeFirst (l : List (Option Int)) (x : Option Int) :
    x ∈ dedupeFirst l ↔ x ∈ l := by
  unfold dedupeFirst
  have main : ∀ (l : List (Option Int)) (acc : List (Option Int)),
      (x ∈ l.foldl (fun acc x => if x ∈ acc then acc else acc ++ [x]) acc ↔
        x ∈ acc ∨ x ∈ l) := by
    intro l
    induction l with
    | nil => intro acc; simp
    | cons y rest ih =>
      intro acc
      simp only [List.foldl_cons, List.mem_cons]
      rw [ih]
      by_cases hy : y ∈ acc
      · rw [if_pos hy]
        constructor
        · rintro (h | h)
          · exact Or.inl h
          · exact Or.inr (Or.inr h)
        · rintro (h | h | h)
          · exact Or.inl h
          · exact Or.inl (h ▸ hy)
          · exact Or.inr h
      · rw [if_neg hy]
        simp only [List.mem_append, List.mem_singleton]
        tauto
  rw [main l []]
  simp

theorem nodup_dedupeFirst (l : List (Option Int)) : (dedupeFirst l).Nodup := by
  unfold dedupeFirst
  have main : ∀ (l : List (Option Int)) (acc : List (Option Int)),
      acc.Nodup → (l.foldl (fun acc x => if x ∈ acc then acc else acc ++ [x]) acc).Nodup := by
    intro l
    induction l with
    | nil => intro acc h; exact h
    | cons y rest ih =>
      intro acc h
      simp only [List.foldl_cons]
      apply ih
      by_cases hy : y ∈ acc
      · simpa [hy] using h
      · rw [if_neg hy, List.nodup_append]
        exact ⟨h, List.nodup_singleton _, by simpa using hy⟩
  exact main l [] (by simp)

theorem yearStep_skip (y : Option Int) (m : List (String × CommitData))
    (acc : List (String × Nat) × Nat) (d : String)
    (hy : ¬(jsNumEq (parseYear d) y = true)) : yearStep y m acc d = acc := by
  unfold yearStep
  simp [hy]

theorem yearStep_absent (y : Option Int) (m : List (String × CommitData))
    (acc : List (String × Nat) × Nat) (d : String)
    (hy : jsNumEq (parseYear d) y = true) (hl : lookupA m d = none) :
    yearStep y m acc d = acc := by
  unfold yearStep
  simp [hy, hl]

theorem yearStep_found (y : Option Int) (m : List (String × CommitData))
    (acc : List (String × Nat) × Nat) (d : String) (c : CommitData)
    (hy : jsNumEq (parseYear d) y = true) (hl : lookupA m d = some c) :
    yearStep y m acc d =
      (c.projects.foldl (fun pt q => bumpTotals pt q c.count) acc.1,
       acc.2 + c.count) := by
  unfold yearStep
  simp [hy, hl]

theorem foldl_yearStep_total (y : Option Int) (m : List (String × CommitData))
    (ds : List String) (acc : List (String × Nat) × Nat) :
    (ds.foldl (yearStep y m) acc).2 =
      acc.2 + ((ds.filter (fun d => jsNumEq (parseYear d) y)).map (dmCountAt m)).sum := by
  induction ds generalizing acc with
  | nil => simp
  | cons d rest ih =>
    simp only [List.foldl_cons, List.filter_cons]
    by_cases hy : jsNumEq (parseYear d) y = true
    · simp only [hy, if_true, List.map_cons, List.sum_cons]
      cases hl : lookupA m d with
      | none =>
        rw [yearStep_absent y m acc d hy hl, ih]
        simp [dmCountAt, hl]
      | some c =>
        rw [yearStep_found y m acc d c hy hl, ih]
        simp only [dmCountAt, hl]
        omega
    · simp only [hy, Bool.false_eq_true, if_false]
      rw [yearStep_skip y m acc d hy, ih]

theorem yearSummaryOf_total (y : Option Int) (ds : List String)
    (m : List (String × CommitData)) :
    (yearSummaryOf y ds m).total =
      ((ds.filter (fun d => jsNumEq (parseYear d) y)).map (dmCountAt m)).sum := by
  have h0 : (yearSummaryOf y ds m).total = (ds.foldl (yearStep y m) ([], 0)).2 := rfl
  rw [h0, foldl_yearStep_total]
  simp

theorem totalsAt_bumpTotals (pt : List (String × Nat)) (q p : String) (c : Nat) :
    totalsAt (bumpTotals pt q c) p = totalsAt pt p + if p = q then c else 0 := by
  induction pt with
  | nil =>
    by_cases h : p = q
    · subst h; simp [bumpTotals, totalsAt]
    · simp [bumpTotals, totalsAt, h, Ne.symm h]
  | cons e rest ih =>
    obtain ⟨k0, n⟩ := e
    by_cases h0 : k0 = q
    · subst h0
      by_cases hp : p = k0
      · subst hp; simp [bumpTotals, totalsAt]
      · simp [bumpTotals, totalsAt, hp, Ne.symm hp]
    · by_cases hp : k0 = p
      · subst hp
        simp [bumpTotals, totalsAt, h0]
      · simp [bumpTotals, totalsAt, h0, hp, ih]

theorem totalsAt_foldl_projects (projects : List String) (pt : List (String × Nat))
    (p : String) (c : Nat) (hnd : projects.Nodup) :
    totalsAt (projects.foldl (fun pt q => bumpTotals pt q c) pt) p =
      totalsAt pt p + if p ∈ projects then c else 0 := by
  induction projects generalizing pt with
  | nil => simp
  | cons q rest ih =>
    simp only [List.foldl_cons, List.mem_cons]
    rw [ih _ (List.nodup_cons.mp hnd).2, totalsAt_bumpTotals]
    by_cases hpq : p = q
    · subst hpq
      have : p ∉ rest := (List.nodup_cons.mp hnd).1
      simp [this]
    · simp only [if_neg hpq]
      by_cases hpr : p ∈ rest
      · simp [hpr, hpq]
      · simp [hpr, hpq]

theorem lookupA_mem (m : List (String × CommitData)) (d : String) (c : CommitData)
    (hl : lookupA m d = some c) : (d, c) ∈ m := by
  induction m with
  | nil => simp [lookupA] at hl
  | cons e rest ih =>
    obtain ⟨k0, w⟩ := e
    by_cases h0 : k0 = d
    · subst h0
      simp only [lookupA, eq_self_iff_true, ite_true, Option.some_inj] at hl
      rw [← hl]
      exact List.mem_cons_self _ _
    · simp only [lookupA, if_neg h0] at hl
      exact List.mem_cons_of_mem _ (ih hl)

theorem foldl_yearStep_totalsAt (y : Option Int) (m : List (String × CommitData))
    (ds : List String) (acc : List (String × Nat) × Nat) (p : String)
    (hnd : ∀ e ∈ m, e.2.projects.Nodup) :
    totalsAt (ds.foldl (yearStep y m) acc).1 p =
      totalsAt acc.1 p +
        ((ds.filter (fun d => jsNumEq (parseYear d) y)).map
          (fun d => if p ∈ dmProjsAt m d then dmCountAt m d else 0)).sum := by
  induction ds generalizing acc with
  | nil => simp
  | cons d rest ih =>
    simp only [List.foldl_cons, List.filter_cons]
    by_cases hy : jsNumEq (parseYear d) y = true
    · simp only [hy, if_true, List.map_cons, List.sum_cons]
      cases hl : lookupA m d with
      | none =>
        rw [yearStep_absent y m acc d hy hl, ih]
        simp [dmProjsAt, hl]
      | some c =>
        rw [yearStep_found y m acc d c hy hl, ih]
        simp only
        have hcnd : c.projects.Nodup := hnd (d, c) (lookupA_mem m d c hl)
        rw [totalsAt_foldl_projects c.projects acc.1 p c.count hcnd]
        simp only [dmProjsAt, dmCountAt, hl]
        omega
    · simp only [hy, Bool.false_eq_true, if_false]
      rw [yearStep_skip y m acc d hy, ih]

theorem yearSummaryOf_totalsAt (y : Option Int) (ds : List String)
    (m : List (String × CommitData)) (p : String)
    (hnd : ∀ e ∈ m, e.2.projects.Nodup) :
    totalsAt (yearSummaryOf y ds m).projectTotals p =
      ((ds.filter (fun d => jsNumEq (parseYear d) y)).map
        (fun d => if p ∈ dmProjsAt m d then dmCountAt m d else 0)).sum := by
  have h0 : (yearSummaryOf y ds m).projectTotals = (ds.foldl (yearStep y m) ([], 0)).1 := rfl
  rw [h0, foldl_yearStep_totalsAt y m ds ([], 0) p hnd]
  simp [totalsAt]

theorem lookupA_some_of_mem_keys (m : List (String × CommitData)) (d : String)
    (hd : d ∈ dmKeysOf m) : ∃ c, lookupA m d = some c := by
  induction m with
  | nil => simp [dmKeysOf] at hd
  | cons e rest ih =>
    obtain ⟨k0, v⟩ := e
    by_cases h0 : k0 = d
    · exact ⟨v, by simp [lookupA, h0]⟩
    · have : d ∈ dmKeysOf rest := by
        simp only [dmKeysOf, List.map_cons, List.mem_cons] at hd
        rcases hd with hd | hd
        · exact absurd hd.symm h0
        · exact hd
      obtain ⟨c, hc⟩ := ih this
      exact ⟨c, by simp [lookupA, h0, hc]⟩

theorem sum_keys_general (m : List (String × CommitData))
    (hnd : (dmKeysOf m).Nodup) (P : String → CommitData → Bool)
    (G : String → CommitData → Nat) :
    (((dmKeysOf m).filter
        (fun d => match lookupA m d with | some c => P d c | none => false)).map
      (fun d => match lookupA m d with | some c => G d c | none => 0)).sum
    = ((m.filter (fun e => P e.1 e.2)).map (fun e => G e.1 e.2)).sum := by
  induction m with
  | nil => simp [dmKeysOf]
  | cons e rest ih =>
    obtain ⟨k, v⟩ := e
    have hk : k ∉ dmKeysOf rest := by
      simp only [dmKeysOf, List.map_cons, List.nodup_cons] at hnd
      exact hnd.1
    have hnd' : (dmKeysOf rest).Nodup := by
      simp only [dmKeysOf, List.map_cons, List.nodup_cons] at hnd
      exact hnd.2
    have hlk : lookupA ((k, v) :: rest) k = some v := by simp [lookupA]
    have hrest_lookup : ∀ d ∈ dmKeysOf rest, lookupA ((k, v) :: rest) d = lookupA rest d := by
      intro d hd
      have : ¬(k = d) := fun h => hk (h ▸ hd)
      simp [lookupA, this]
    have hfilter : (dmKeysOf rest).filter
        (fun d => match lookupA ((k, v) :: rest) d with | some c => P d c | none => false) =
        (dmKeysOf rest).filter
        (fun d => match lookupA rest d with | some c => P d c | none => false) := by
      apply List.filter_congr
      intro d hd
      rw [hrest_lookup d hd]
    have hmap : ∀ (l : List String), (∀ d ∈ l, d ∈ dmKeysOf rest) →
        (l.map (fun d => match lookupA ((k, v) :: rest) d with | some c => G d c | none => 0)) =
        (l.map (fun d => match lookupA rest d with | some c => G d c | none => 0)) := by
      intro l hl
      apply List.map_congr_left
      intro d hd
      rw [hrest_lookup d (hl d hd)]
    have hmatchP : (match lookupA ((k, v) :: rest) k with
        | some c => P k c | none => false) = P k v := by rw [hlk]
    have hmatchG : (match lookupA ((k, v) :: rest) k with
        | some c => G k c | none => 0) = G k v := by rw [hlk]
    have hkeys : dmKeysOf ((k, v) :: rest) = k :: dmKeysOf rest := rfl
    rw [hkeys]
    simp only [List.filter_cons, hmatchP]
    by_cases hP : P k v = true
    · simp only [hP, if_true, List.map_cons, List.sum_cons, hmatchG]
      rw [hfilter, hmap _ (fun d hd => List.mem_of_mem_filter hd), ih hnd']
    · simp only [hP, Bool.false_eq_true, if_false]
      rw [hfilter, hmap _ (fun d hd => List.mem_of_mem_filter hd), ih hnd']

/-- Claim C3 counterexample: for the aggregate `{"garbage" ↦ 1 commit}` — a
mapping the pipeline produces for a malformed non-blank `Date` — the year
prefix does not parse (`parseInt` gives `NaN`), `NaN === NaN` is false, so
no `YearSummary` receives the commit: the year totals sum to 0 while the
aggregate holds 1. -/
theorem c3_counterexample :
    sumYearTotals [⟨"garbage", 1, ["X"]⟩] = 0
    ∧ totalContributionsOf [⟨"garbage", 1, ["X"]⟩] = 1 := by
  constructor <;> decide

/-- Claim C3 amended: when every record's date key has a parseable year
prefix (as every well-formed `YYYY-MM-DD` key does), the sum over all years
of `YearSummary.total` equals the sum of `count` over the aggregate mapping
— no commit is double-counted or dropped between aggregation and the
per-year reports. -/
theorem c3_year_totals_conserved (data : List CommitData)
    (hvalid : ∀ item ∈ data, (parseYear item.date).isSome = true) :
    sumYearTotals data = totalContributionsOf data := by
  have hm : buildDateMap data = buildDateMap data := rfl
  set m := buildDateMap data with hmdef
  set ds := allDatesOf m with hdsdef
  set ys := yearsOf ds with hysdef
  have hkeysnd : (dmKeysOf m).Nodup := dmKeysOf_buildDateMap_nodup data
  have hpermds : ds.Perm (dmKeysOf m) := List.perm_insertionSort _ _
  have hpermys : ys.Perm (dedupeFirst (ds.map parseYear)) := List.perm_insertionSort _ _
  have hysnd : ys.Nodup := hpermys.nodup_iff.mpr (nodup_dedupeFirst _)
  have h1 : yearlyStatsOf data =
      List.insertionSort statsDescLe (ys.map (fun y => yearSummaryOf y ds m)) := rfl
  have h2 : sumYearTotals data =
      ((ys.map (fun y => yearSummaryOf y ds m)).map (fun s => s.total)).sum := by
    unfold sumYearTotals
    rw [h1]
    exact ((List.perm_insertionSort statsDescLe _).map (fun s => s.total)).sum_eq
  rw [h2, List.map_map]
  have h3 : (ys.map ((fun s => s.total) ∘ fun y => yearSummaryOf y ds m)) =
      ys.map (fun y => (ds.map (fun d =>
        if jsNumEq (parseYear d) y then dmCountAt m d else 0)).sum) := by
    apply List.map_congr_left
    intro y _
    show (yearSummaryOf y ds m).total = _
    rw [yearSummaryOf_total, sum_map_ite_filter]
  rw [h3, sum_swap_years]
  have h4 : (ds.map (fun d => (ys.map (fun y =>
      if jsNumEq (parseYear d) y then dmCountAt m d else 0)).sum)) =
      ds.map (dmCountAt m) := by
    apply List.map_congr_left
    intro d hd
    have hdk : d ∈ dmKeysOf m := hpermds.mem_iff.mp hd
    obtain ⟨item, hitem, hdate⟩ := mem_dmKeysOf_buildDateMap data d hdk
    have hsome : (parseYear d).isSome = true := hdate ▸ hvalid item hitem
    obtain ⟨n, hn⟩ := Option.isSome_iff_exists.mp hsome
    have hmem : some n ∈ ys := by
      rw [hpermys.mem_iff, mem_dedupeFirst]
      exact hn ▸ List.mem_map_of_mem parseYear hd
    rw [hn]
    exact sum_ite_single ys n (dmCountAt m d) hysnd hmem
  rw [h4, (hpermds.map (dmCountAt m)).sum_eq]
  have h5 : ((dmKeysOf m).map (dmCountAt m)).sum =
      (((dmKeysOf m).filter (fun d => match lookupA m d with
        | some _ => true | none => false)).map (fun d => match lookupA m d with
        | some c => c.count | none => 0)).sum := by
    have hfilter : (dmKeysOf m).filter (fun d => match lookupA m d with
        | some _ => true | none => false) = dmKeysOf m := by
      rw [List.filter_congr (q := fun _ => true), List.filter_true]
      intro d hd
      obtain ⟨c, hc⟩ := lookupA_some_of_mem_keys m d hd
      rw [hc]
    rw [hfilter]
    apply congrArg
    apply List.map_congr_left
    intro d _
    rfl
  rw [h5, sum_keys_general m hkeysnd (fun _ _ => true) (fun _ c => c.count)]
  unfold totalContributionsOf
  rw [List.filter_true]

theorem c3_witness :
    (∀ item ∈ ([⟨"2024-03-01", 2, ["A"]⟩, ⟨"2023-01-05", 1, ["B"]⟩] : List CommitData),
      (parseYear item.date).isSome = true)
    ∧ sumYearTotals [⟨"2024-03-01", 2, ["A"]⟩, ⟨"2023-01-05", 1, ["B"]⟩] =
        totalContributionsOf [⟨"2024-03-01", 2, ["A"]⟩, ⟨"2023-01-05", 1, ["B"]⟩] :=
  ⟨by decide, c3_year_totals_conserved _ (by decide)⟩

theorem sum_map_ite_to_filter (l : List String) (q r : String → Bool) (f : String → Nat) :
    ((l.filter q).map (fun x => if r x then f x else 0)).sum =
      ((l.filter (fun x => q x && r x)).map f).sum := by
  induction l with
  | nil => simp
  | cons x rest ih =>
    simp only [List.filter_cons]
    by_cases hq : q x = true
    · by_cases hr : r x = true
      · simp [hq, hr, ih]
      · simp [hq, hr, ih]
    · simp [hq, ih]

/-- Claim C5: for every year `Y` and aggregate, `YearSummary(Y).total` is
the sum of `count` over the records whose date's year parses to `Y`, and
each project's `projectTotals` entry receives the record's *full* count for
every record listing that project (intentional double-attribution; counts
are not split among projects).  Stated for inputs whose per-record project
lists are duplicate-free, as all pipeline-produced aggregates are. -/
theorem c5_year_summary_totals (data : List CommitData) (Y : Int)
    (hnd : ∀ item ∈ data, item.projects.Nodup) :
    (yearSummaryOf (some Y) (allDatesOf (buildDateMap data)) (buildDateMap data)).total =
      (((buildDateMap data).filter (fun e => jsNumEq (parseYear e.1) (some Y))).map
        (fun e => e.2.count)).sum
    ∧ ∀ p, totalsAt (yearSummaryOf (some Y) (allDatesOf (buildDateMap data))
          (buildDateMap data)).projectTotals p =
      (((buildDateMap data).filter (fun e => jsNumEq (parseYear e.1) (some Y) &&
          e.2.projects.contains p)).map (fun e => e.2.count)).sum := by
  set m := buildDateMap data with hmdef
  set ds := allDatesOf m with hdsdef
  have hkeysnd : (dmKeysOf m).Nodup := dmKeysOf_buildDateMap_nodup data
  have hpermds : ds.Perm (dmKeysOf m) := List.perm_insertionSort _ _
  have hndm : ∀ e ∈ m, e.2.projects.Nodup :=
    fun e he => hnd e.2 (values_buildDateMap_mem data e he)
  constructor
  · rw [yearSummaryOf_total]
    rw [((hpermds.filter (fun d => jsNumEq (parseYear d) (some Y))).map (dmCountAt m)).sum_eq]
    have hfc : (dmKeysOf m).filter (fun d => jsNumEq (parseYear d) (some Y)) =
        (dmKeysOf m).filter (fun d => match lookupA m d with
          | some c => jsNumEq (parseYear d) (some Y) | none => false) := by
      apply List.filter_congr
      intro d hd
      obtain ⟨c, hc⟩ := lookupA_some_of_mem_keys m d hd
      rw [hc]
    have hmc : ∀ (l : List String), l.map (dmCountAt m) =
        l.map (fun d => match lookupA m d with | some c => c.count | none => 0) := by
      intro l
      apply List.map_congr_left
      intro d _
      rfl
    rw [hfc, hmc]
    exact sum_keys_general m hkeysnd (fun d _ => jsNumEq (parseYear d) (some Y)) (fun _ c => c.count)
  · intro p
    rw [yearSummaryOf_totalsAt _ _ _ _ hndm]
    have hite : (ds.filter (fun d => jsNumEq (parseYear d) (some Y))).map
        (fun d => if p ∈ dmProjsAt m d then dmCountAt m d else 0) =
        (ds.filter (fun d => jsNumEq (parseYear d) (some Y))).map
        (fun d => if (dmProjsAt m d).contains p then dmCountAt m d else 0) := by
      apply List.map_congr_left
      intro d _
      by_cases hp : p ∈ dmProjsAt m d
      · rw [if_pos hp, if_pos (List.elem_iff.mpr hp)]
      · rw [if_neg hp, if_neg (fun hh => hp (List.elem_iff.mp hh))]
    rw [hite, sum_map_ite_to_filter]
    rw [((hpermds.filter (fun d => jsNumEq (parseYear d) (some Y) &&
      (dmProjsAt m d).contains p)).map (dmCountAt m)).sum_eq]
    have hfc : (dmKeysOf m).filter (fun d => jsNumEq (parseYear d) (some Y) &&
        (dmProjsAt m d).contains p) =
        (dmKeysOf m).filter (fun d => match lookupA m d with
          | some c => jsNumEq (parseYear d) (some Y) && c.projects.contains p
          | none => false) := by
      apply List.filter_congr
      intro d hd
      obtain ⟨c, hc⟩ := lookupA_some_of_mem_keys m d hd
      rw [hc]
      unfold dmProjsAt
      rw [hc]
    have hmc : ∀ (l : List String), l.map (dmCountAt m) =
        l.map (fun d => match lookupA m d with | some c => c.count | none => 0) := by
      intro l
      apply List.map_congr_left
      intro d _
      rfl
    rw [hfc, hmc]
    exact sum_keys_general m hkeysnd
      (fun d c => jsNumEq (parseYear d) (some Y) && c.projects.contains p)
      (fun _ c => c.count)

theorem c5_witness :
    (∀ item ∈ ([⟨"2024-03-01", 2, ["ALPHA", "BETA"]⟩, ⟨"2024-03-02", 1, ["BETA"]⟩] :
        List CommitData), item.projects.Nodup)
    ∧ ((yearSummaryOf (some 2024)
          (allDatesOf (buildDateMap [⟨"2024-03-01", 2, ["ALPHA", "BETA"]⟩, ⟨"2024-03-02", 1, ["BETA"]⟩]))
          (buildDateMap [⟨"2024-03-01", 2, ["ALPHA", "BETA"]⟩, ⟨"2024-03-02", 1, ["BETA"]⟩])).total =
        (((buildDateMap [⟨"2024-03-01", 2, ["ALPHA", "BETA"]⟩, ⟨"2024-03-02", 1, ["BETA"]⟩]).filter
            (fun e => jsNumEq (parseYear e.1) (some 2024))).map (fun e => e.2.count)).sum
      ∧ ∀ p, totalsAt (yearSummaryOf (some 2024)
            (allDatesOf (buildDateMap [⟨"2024-03-01", 2, ["ALPHA", "BETA"]⟩, ⟨"2024-03-02", 1, ["BETA"]⟩]))
            (buildDateMap [⟨"2024-03-01", 2, ["ALPHA", "BETA"]⟩, ⟨"2024-03-02", 1, ["BETA"]⟩])).projectTotals p =
        (((buildDateMap [⟨"2024-03-01", 2, ["ALPHA", "BETA"]⟩, ⟨"2024-03-02", 1, ["BETA"]⟩]).filter
            (fun e => jsNumEq (parseYear e.1) (some 2024) && e.2.projects.contains p)).map
          (fun e => e.2.count)).sum) :=
  ⟨by decide, c5_year_summary_totals _ 2024 (by decide)⟩

theorem daysBeforeYear_succ (y : Int) :
    daysBeforeYear (y + 1) = daysBeforeYear y + 365 + (if isLeap y then 1 else 0) := by
  unfold daysBeforeYear isLeap
  by_cases h : (y % 4 == 0 && (y % 100 != 0 || y % 400 == 0)) = true
  · rw [if_pos h]
    simp only [Bool.and_eq_true, beq_iff_eq, Bool.or_eq_true, bne_iff_ne, ne_eq] at h
    omega
  · rw [if_neg h]
    simp only [Bool.and_eq_true, beq_iff_eq, Bool.or_eq_true, bne_iff_ne, ne_eq] at h
    omega

theorem daysBeforeYear_mono (a b : Int) (h : a ≤ b) :
    daysBeforeYear a ≤ daysBeforeYear b := by
  refine @Int.le_induction (fun n => daysBeforeYear a ≤ daysBeforeYear n) a
    (le_refl _) ?_ b h
  intro n _ ihn
  have := daysBeforeYear_succ n
  by_cases hl : isLeap n = true <;> simp [hl] at this <;> omega

theorem daysBeforeYear_succ_ge (y : Int) :
    daysBeforeYear y + 365 ≤ daysBeforeYear (y + 1) := by
  have := daysBeforeYear_succ y
  by_cases hl : isLeap y = true <;> simp [hl] at this <;> omega

theorem daysBeforeYear_succ_le (y : Int) :
    daysBeforeYear (y + 1) ≤ daysBeforeYear y + 366 := by
  have := daysBeforeYear_succ y
  by_cases hl : isLeap y = true <;> simp [hl] at this <;> omega

theorem dbm_add_dim_le (y : Int) (m0 : Nat) (h : m0 ≤ 11) :
    daysBeforeMonth y m0 + daysInMonth y m0 ≤ 365 + (if isLeap y then 1 else 0) := by
  interval_cases m0 <;>
    by_cases hl : isLeap y = true <;>
      simp [daysBeforeMonth, daysInMonth, hl]

theorem dbm_ge_31 (y : Int) (m0 : Nat) (h1 : 1 ≤ m0) (h11 : m0 ≤ 11) :
    31 ≤ daysBeforeMonth y m0 := by
  interval_cases m0 <;>
    by_cases hl : isLeap y = true <;>
      simp [daysBeforeMonth, daysInMonth, hl]

theorem dbm_11 (y : Int) :
    daysBeforeMonth y 11 = 334 + (if isLeap y then 1 else 0) := by
  by_cases hl : isLeap y = true <;> simp [daysBeforeMonth, daysInMonth, hl]

theorem dayNumber_lower (t : Ymd) (hv : t.validDate) :
    daysBeforeYear t.year ≤ dayNumber t := by
  obtain ⟨h1, h2, h3⟩ := hv
  unfold dayNumber
  have : (0 : Int) ≤ daysBeforeMonth t.year t.month0 := Int.ofNat_nonneg _
  omega

theorem dayNumber_upper (t : Ymd) (hv : t.validDate) :
    dayNumber t ≤ daysBeforeYear (t.year + 1) - 1 := by
  obtain ⟨h1, h2, h3⟩ := hv
  unfold dayNumber
  have hb := dbm_add_dim_le t.year t.month0 h1
  have hs := daysBeforeYear_succ t.year
  by_cases hl : isLeap t.year = true <;> simp [hl] at hb hs <;> omega

theorem nextDay_valid (t : Ymd) (hv : t.validDate) : (nextDay t).validDate := by
  obtain ⟨h1, h2, h3⟩ := hv
  unfold nextDay Ymd.validDate
  by_cases hd : t.day < daysInMonth t.year t.month0
  · simp only [if_pos hd]
    exact ⟨h1, by omega, by omega⟩
  · rw [if_neg hd]
    by_cases hm : t.month0 < 11
    · simp only [if_pos hm]
      refine ⟨by omega, by omega, ?_⟩
      have : 1 ≤ daysInMonth t.year (t.month0 + 1) := by
        unfold daysInMonth
        interval_cases m0 : t.month0 <;> by_cases hl : isLeap t.year = true <;> simp [hl]
      omega
    · simp only [if_neg hm]
      exact ⟨by omega, by omega, by simp [daysInMonth]⟩

theorem dayNumber_nextDay (t : Ymd) (hv : t.validDate) :
    dayNumber (nextDay t) = dayNumber t + 1 := by
  obtain ⟨h1, h2, h3⟩ := hv
  unfold nextDay
  by_cases hd : t.day < daysInMonth t.year t.month0
  · simp only [if_pos hd]
    unfold dayNumber
    simp only
    omega
  · rw [if_neg hd]
    have hdim : t.day = daysInMonth t.year t.month0 := by omega
    by_cases hm : t.month0 < 11
    · simp only [if_pos hm]
      unfold dayNumber
      simp only
      have : daysBeforeMonth t.year (t.month0 + 1) =
          daysBeforeMonth t.year t.month0 + daysInMonth t.year t.month0 := rfl
      omega
    · simp only [if_neg hm]
      have hm11 : t.month0 = 11 := by omega
      unfold dayNumber
      simp only
      have hdim11 : daysInMonth t.year 11 = 31 := rfl
      rw [hm11] at hdim ⊢
      rw [hdim11] at hdim
      have hdbm := dbm_11 t.year
      have hs := daysBeforeYear_succ t.year
      have hdbm0 : daysBeforeMonth (t.year + 1) 0 = 0 := rfl
      by_cases hl : isLeap t.year = true <;> simp [hl] at hdbm hs <;> omega

theorem year_le_of_dayNumber (Y : Int) (t : Ymd) (hv : t.validDate)
    (h : dayNumber t ≤ daysBeforeYear (Y + 1) + 7) : t.year ≤ Y + 1 := by
  by_contra hgt
  push_neg at hgt
  have h1 : daysBeforeYear t.year ≤ dayNumber t := dayNumber_lower t hv
  have h2 : daysBeforeYear (Y + 2) ≤ daysBeforeYear t.year :=
    daysBeforeYear_mono _ _ (by omega)
  have h3 : daysBeforeYear (Y + 1) + 365 ≤ daysBeforeYear (Y + 2) := by
    have h4 := daysBeforeYear_succ_ge (Y + 1)
    rw [show Y + 1 + 1 = Y + 2 from by ring] at h4
    exact h4
  omega

theorem month_day_det (Y : Int) (t : Ymd) (hv : t.validDate)
    (hy : t.year = Y + 1) (h : dayNumber t ≤ daysBeforeYear (Y + 1) + 7) :
    t.month0 = 0 ∧ (t.day : Int) = dayNumber t - daysBeforeYear (Y + 1) + 1 := by
  obtain ⟨h1, h2, h3⟩ := hv
  unfold dayNumber at h ⊢
  rw [hy] at h ⊢
  have hm0 : t.month0 = 0 := by
    by_contra hne
    have : 31 ≤ daysBeforeMonth (Y + 1) t.month0 := dbm_ge_31 (Y + 1) t.month0 (by omega) h1
    omega
  rw [hm0] at h ⊢
  have : daysBeforeMonth (Y + 1) 0 = 0 := rfl
  constructor
  · rfl
  · omega

theorem loopCond_iff (Y : Int) (t : Ymd) (hv : t.validDate) :
    loopCond Y t = true ↔ dayNumber t ≤ daysBeforeYear (Y + 1) + 6 := by
  unfold loopCond
  simp only [Bool.or_eq_true, Bool.and_eq_true, decide_eq_true_eq, beq_iff_eq]
  constructor
  · rintro (h | ⟨⟨hy, hm⟩, hd⟩)
    · have h1 : dayNumber t ≤ daysBeforeYear (t.year + 1) - 1 := dayNumber_upper t hv
      have h2 : daysBeforeYear (t.year + 1) ≤ daysBeforeYear (Y + 1) :=
        daysBeforeYear_mono _ _ (by omega)
      omega
    · unfold dayNumber
      rw [hy, hm]
      have : daysBeforeMonth (Y + 1) 0 = 0 := rfl
      omega
  · intro h
    by_cases hy : t.year ≤ Y
    · exact Or.inl hy
    · have hle : t.year ≤ Y + 1 := year_le_of_dayNumber Y t hv (by omega)
      have hy1 : t.year = Y + 1 := by omega
      obtain ⟨hm, hd⟩ := month_day_det Y t hv hy1 (by omega)
      refine Or.inr ⟨⟨hy1, hm⟩, ?_⟩
      omega

theorem breakCond_eq_false (Y : Int) (t : Ymd) (hv : t.validDate)
    (h : dayNumber t ≤ daysBeforeYear (Y + 1) + 7) : breakCond Y t = false := by
  unfold breakCond
  by_cases hy : t.year ≤ Y
  · simp [show ¬(Y < t.year) from by omega]
  · have hle : t.year ≤ Y + 1 := year_le_of_dayNumber Y t hv h
    have hy1 : t.year = Y + 1 := by omega
    obtain ⟨hm, _⟩ := month_day_det Y t hv hy1 h
    simp [hm]

theorem append_singleton_not_empty (l : List DayData) (c : DayData) :
    (l ++ [c]).isEmpty = false := by
  cases l <;> rfl

theorem weekLoop_finalize (Y : Int) (dm : List (String × CommitData)) (t : Ymd)
    (hc : loopCond Y t = false) (fuel : Nat) (cw : List DayData)
    (weeks : List (List DayData)) :
    weekLoop Y dm fuel t cw weeks = weeks ++ if cw.isEmpty then [] else [cw] := by
  cases fuel with
  | zero => rfl
  | succ fuel => rw [weekLoop]; simp [hc]

theorem weekLoop_eq_chunks (Y : Int) (dm : List (String × CommitData)) :
    ∀ (fuel : Nat) (t : Ymd) (cw : List DayData) (weeks : List (List DayData)),
      t.validDate → dayNumber t ≤ daysBeforeYear (Y + 1) + 6 →
      (daysBeforeYear (Y + 1) + 6 - dayNumber t).toNat < fuel →
      weekLoop Y dm fuel t cw weeks =
        weeks ++ chunks7From cw
          ((dateRange t ((daysBeforeYear (Y + 1) + 6 - dayNumber t).toNat + 1)).map
            (mkCell dm)) := by
  intro fuel
  induction fuel with
  | zero => intro t cw weeks _ _ hfuel; omega
  | succ fuel ih =>
    intro t cw weeks hv hle hfuel
    have hcond : loopCond Y t = true := (loopCond_iff Y t hv).mpr hle
    have hv' : (nextDay t).validDate := nextDay_valid t hv
    have hnum' : dayNumber (nextDay t) = dayNumber t + 1 := dayNumber_nextDay t hv
    have hbreak : breakCond Y (nextDay t) = false :=
      breakCond_eq_false Y (nextDay t) hv' (by omega)
    rw [weekLoop]
    simp only [hcond, if_true, hbreak, Bool.false_eq_true, if_false]
    have hrange : dateRange t ((daysBeforeYear (Y + 1) + 6 - dayNumber t).toNat + 1) =
        t :: dateRange (nextDay t) ((daysBeforeYear (Y + 1) + 6 - dayNumber t).toNat) := rfl
    rw [hrange]
    simp only [List.map_cons]
    rw [show (chunks7From cw (mkCell dm t ::
        (dateRange (nextDay t) ((daysBeforeYear (Y + 1) + 6 - dayNumber t).toNat)).map (mkCell dm)) =
        if (cw ++ [mkCell dm t]).length = 7 then
          (cw ++ [mkCell dm t]) :: chunks7From []
            ((dateRange (nextDay t) ((daysBeforeYear (Y + 1) + 6 - dayNumber t).toNat)).map (mkCell dm))
        else chunks7From (cw ++ [mkCell dm t])
            ((dateRange (nextDay t) ((daysBeforeYear (Y + 1) + 6 - dayNumber t).toNat)).map (mkCell dm)))
      from rfl]
    by_cases hE : dayNumber t = daysBeforeYear (Y + 1) + 6
    · have hn0 : (daysBeforeYear (Y + 1) + 6 - dayNumber t).toNat = 0 := by omega
      rw [hn0]
      have hcond' : loopCond Y (nextDay t) = false := by
        rw [Bool.eq_false_iff]
        intro hc
        have := (loopCond_iff Y (nextDay t) hv').mp hc
        omega
      simp only [dateRange, List.map_nil]
      by_cases hf : (cw ++ [mkCell dm t]).length = 7
      · simp only [hf, if_true]
        rw [weekLoop_finalize Y dm (nextDay t) hcond']
        simp [chunks7From, List.append_assoc]
      · simp only [hf, if_false]
        rw [weekLoop_finalize Y dm (nextDay t) hcond']
        simp [chunks7From, append_singleton_not_empty]
    · have hlt : dayNumber t < daysBeforeYear (Y + 1) + 6 := by omega
      have harith : (daysBeforeYear (Y + 1) + 6 - dayNumber t).toNat =
          (daysBeforeYear (Y + 1) + 6 - dayNumber (nextDay t)).toNat + 1 := by omega
      rw [harith]
      by_cases hf : (cw ++ [mkCell dm t]).length = 7
      · simp only [hf, if_true]
        rw [ih (nextDay t) [] (weeks ++ [cw ++ [mkCell dm t]]) hv' (by omega) (by omega)]
        simp [List.append_assoc]
      · simp only [hf, if_false]
        rw [ih (nextDay t) (cw ++ [mkCell dm t]) weeks hv' (by omega) (by omega)]

theorem startDateFor_spec (Y : Int) :
    (startDateFor Y).validDate
    ∧ dayNumber (startDateFor Y) ≤ daysBeforeYear (Y + 1) + 6
    ∧ (daysBeforeYear (Y + 1) + 6 - dayNumber (startDateFor Y)).toNat < 400 := by
  have hw0 : 0 ≤ getDayOfWeek ⟨Y, 0, 1⟩ := Int.emod_nonneg _ (by norm_num)
  have hw7 : getDayOfWeek ⟨Y, 0, 1⟩ < 7 := Int.emod_lt_of_pos _ (by norm_num)
  have hsuccge : daysBeforeYear Y + 365 ≤ daysBeforeYear (Y + 1) := daysBeforeYear_succ_ge Y
  have hsuccle : daysBeforeYear (Y + 1) ≤ daysBeforeYear Y + 366 := daysBeforeYear_succ_le Y
  have hprevge : daysBeforeYear (Y - 1) + 365 ≤ daysBeforeYear Y := by
    have h := daysBeforeYear_succ_ge (Y - 1)
    rw [show Y - 1 + 1 = Y from by ring] at h
    exact h
  have hprevle : daysBeforeYear Y ≤ daysBeforeYear (Y - 1) + 366 := by
    have h := daysBeforeYear_succ_le (Y - 1)
    rw [show Y - 1 + 1 = Y from by ring] at h
    exact h
  have hdbm11 := dbm_11 (Y - 1)
  unfold startDateFor setDateInJan
  set w := getDayOfWeek ⟨Y, 0, 1⟩ with hwdef
  by_cases h : 1 ≤ 2 - w
  · rw [if_pos h]
    have hd1 : 1 ≤ (2 - w).toNat := by omega
    have hd2 : (2 - w).toNat ≤ 2 := by omega
    have hdim : daysInMonth Y 0 = 31 := rfl
    have h0 : daysBeforeMonth Y 0 = 0 := rfl
    refine ⟨?_, ?_, ?_⟩
    · unfold Ymd.validDate
      dsimp only
      rw [hdim]
      omega
    · unfold dayNumber
      dsimp only
      rw [h0]
      omega
    · unfold dayNumber
      dsimp only
      rw [h0]
      omega
  · rw [if_neg h]
    have hd1 : 27 ≤ (31 + (2 - w)).toNat := by omega
    have hd2 : (31 + (2 - w)).toNat ≤ 31 := by omega
    have hdim : daysInMonth (Y - 1) 11 = 31 := rfl
    refine ⟨?_, ?_, ?_⟩
    · unfold Ymd.validDate
      dsimp only
      rw [hdim]
      omega
    · unfold dayNumber
      dsimp only
      rw [hdbm11]
      by_cases hl : isLeap (Y - 1) = true <;> simp only [hl, if_true,
        Bool.false_eq_true, if_false] <;> omega
    · unfold dayNumber
      dsimp only
      rw [hdbm11]
      by_cases hl : isLeap (Y - 1) = true <;> simp only [hl, if_true,
        Bool.false_eq_true, if_false] <;> omega

theorem generateWeeksForYear_eq_chunks (Y : Int) (dm : List (String × CommitData)) :
    generateWeeksForYear Y dm =
      chunks7From [] ((dateRange (startDateFor Y)
        ((daysBeforeYear (Y + 1) + 6 - dayNumber (startDateFor Y)).toNat + 1)).map
        (mkCell dm)) := by
  obtain ⟨hv, hle, hfuel⟩ := startDateFor_spec Y
  unfold generateWeeksForYear
  rw [weekLoop_eq_chunks Y dm 400 _ [] [] hv hle hfuel]
  simp

theorem chunks7From_step (cw : List DayData) (c : DayData) (rest : List DayData) :
    chunks7From cw (c :: rest) =
      if (cw ++ [c]).length = 7 then (cw ++ [c]) :: chunks7From [] rest
      else chunks7From (cw ++ [c]) rest := rfl

theorem chunks7From_flatten (cells : List DayData) :
    ∀ cw, (chunks7From cw cells).flatten = cw ++ cells := by
  induction cells with
  | nil =>
    intro cw
    cases cw <;> simp [chunks7From]
  | cons c rest ih =>
    intro cw
    rw [chunks7From_step]
    by_cases hf : (cw ++ [c]).length = 7
    · simp only [hf, if_true, List.flatten_cons]
      rw [ih []]
      simp
    · simp only [hf, if_false]
      rw [ih (cw ++ [c])]
      simp

set_option maxRecDepth 8000 in
/-- Claim C1 is a code bug, evaluated here: January 1 2023 is a Sunday
(`getDay = 0`), and `setDate(getDate() - getDay() + 1)` then moves *forward*
to Monday January 2 2023 instead of back to Monday December 26 2022 — so
`generateWeeksForYear(2023)`'s first cell is `2023-01-02`, and neither
`2022-12-26` (the claimed first cell) nor even `2023-01-01` (a day of the
requested year) appears anywhere in the 2023 grid. -/
theorem c1_sunday_start_bug :
    getDayOfWeek ⟨2023, 0, 1⟩ = 0
    ∧ startDateFor 2023 = ⟨2023, 0, 2⟩
    ∧ ((generateWeeksForYear 2023 []).flatten.map (fun c => c.date)).head? =
        some "2023-01-02"
    ∧ "2022-12-26" ∉ (generateWeeksForYear 2023 []).flatten.map (fun c => c.date)
    ∧ "2023-01-01" ∉ (generateWeeksForYear 2023 []).flatten.map (fun c => c.date) := by
  have hrw : (generateWeeksForYear 2023 []).flatten =
      (dateRange (startDateFor 2023)
        ((daysBeforeYear (2023 + 1) + 6 - dayNumber (startDateFor 2023)).toNat + 1)).map
        (mkCell []) := by
    rw [generateWeeksForYear_eq_chunks, chunks7From_flatten]
    simp
  rw [hrw]
  refine ⟨by decide, by decide, ?_, ?_, ?_⟩
  · decide
  · decide
  · decide
